import Mathlib

/-!
# cpp-misc: loggers, table-driven population count, checked array, observable

A shallow embedding of `logger/logger2.cpp` (the leveled logger, its sinks and
the deduplicating `FilteringStdoutLogSink`), of `logger/logger.cpp` and of
`popcount/popcount1.cpp` and `popcount/popcount2.cpp`, of
`unsafe_proxy/unsafe_proxy.cpp` and of `observable_value/observable.cpp`,
followed by the properties proved about them.  The conventions below are those of `logger2`.

Conventions of the embedding

* `std::string` / `std::string_view` values are lists of characters (`Str`).
* Standard output is the list of write operations performed on it, in order
  (`Write`); `render` turns such a list into the characters that reach the
  stream.  `std::cout` and C `stdout` are synchronised by default, so writes
  through either reach the stream in program order and share one list.
* A member function that mutates its receiver, writes to standard output and may
  throw returns a `Call`: the receiver afterwards, the writes performed, and the
  exception leaving the call (if any).
-/

namespace logger2

/-- Contents of a `std::string` or `std::string_view`. -/
abbrev Str := List Char

/-- The exceptions the code can raise: `std::out_of_range`, thrown by
`std::string_view::substr` when the start position exceeds the size. -/
inductive Exn where
  | out_of_range
deriving DecidableEq, Repr

/-- One write operation on standard output. -/
inductive Write where
  /-- `std::cout << msg`: the characters of `msg`, verbatim. -/
  | text (msg : Str)
  /-- The text `" ... repeated N times"` with `N` printed in decimal. -/
  | repeated (n : Nat)
  /-- A line break (`std::endl`, or the `\n` closing a format string). -/
  | endl
deriving DecidableEq, Repr

/-- Characters a single write puts on the stream. -/
def Write.render : Write → Str
  | .text msg => msg
  | .repeated n => " ... repeated ".data ++ Nat.toDigits 10 n ++ " times".data
  | .endl => ['\n']

/-- Characters a sequence of writes puts on the stream. -/
def render : List Write → Str
  | [] => []
  | w :: ws => w.render ++ render ws

/-- Number of `std::cout << msg` writes, i.e. of lines written verbatim. -/
def verbatimLines : List Write → Nat
  | [] => 0
  | .text _ :: ws => verbatimLines ws + 1
  | _ :: ws => verbatimLines ws

/-- Sum of the counts `N` of all `" ... repeated N times"` writes. -/
def repeatSum : List Write → Nat
  | [] => 0
  | .repeated n :: ws => n + repeatSum ws
  | _ :: ws => repeatSum ws

/-- Outcome of a call of a member function on a receiver of type `σ`. -/
structure Call (σ : Type u) where
  /-- The receiver after the call. -/
  self : σ
  /-- The writes to standard output made by the call, in order. -/
  out : List Write
  /-- The exception that leaves the call, `none` when it returns normally. -/
  thrown : Option Exn

/-! ## `enum class LogLevel : std::uint8_t` -/

/-- The six enumerators of `LogLevel`. -/
inductive LogLevel where
  | debug
  | info
  | warning
  | error
  | critical
  | disabled
deriving DecidableEq, Repr

/-- Underlying `std::uint8_t` value of an enumerator. -/
def LogLevel.val : LogLevel → Nat
  | .debug => 0
  | .info => 1
  | .warning => 2
  | .error => 3
  | .critical => 4
  | .disabled => 5

/-- The built-in `<=` of a scoped enumeration compares the underlying values. -/
instance : LE LogLevel := ⟨fun a b => a.val ≤ b.val⟩

instance (a b : LogLevel) : Decidable (a ≤ b) := inferInstanceAs (Decidable (a.val ≤ b.val))

/-! ## `StdoutLogSink` -/

/-- The plain sink has no data members. -/
structure StdoutLogSink where
deriving DecidableEq, Repr

/-- `StdoutLogSink::log`: `std::cout << msg << std::endl`. -/
def StdoutLogSink.log (self : StdoutLogSink) (msg : Str) : Call StdoutLogSink :=
  ⟨self, [.text msg, .endl], none⟩

/-! ## `FilteringStdoutLogSink<MsgMask>` -/

/-- `std::string_view::find(char)`: index of the first occurrence of `c`,
`none` standing for `npos`. -/
def find : Str → Char → Option Nat
  | [], _ => none
  | x :: xs, c => if x = c then some 0 else (find xs c).map (· + 1)

/-- `std::string_view::substr(pos)`: the characters from `pos` on; throws
`std::out_of_range` when `pos > size()`, which `npos` always is. -/
def substr (msg : Str) : Option Nat → Except Exn Str
  | none => .error .out_of_range
  | some pos => if pos > msg.length then .error .out_of_range else .ok (msg.drop pos)

/-- The default `MsgMask` template argument: `std::string(msg)`. -/
def identityMask (msg : Str) : Except Exn Str := .ok msg

/-- The `MsgMask` of the sink a `Logger` registers as `"default"`:
the empty line has the empty key, any other line the key
`msg.substr(msg.find(delimiter))` with delimiter the vertical bar. -/
def loggerMask (msg : Str) : Except Exn Str :=
  if msg = [] then .ok [] else substr msg (find msg '|')

/-- Data member `std::pair<std::string, std::size_t> last_seen`.  `std::size_t`
is taken to have 64 bits: the counter holds a natural number below `2 ^ 64` and
the increment in `log` is reduced modulo `2 ^ 64`. -/
structure FilteringStdoutLogSink where
  last_seen : Str × Nat
deriving DecidableEq, Repr

/-- A freshly constructed sink: `last_seen{}`. -/
def FilteringStdoutLogSink.fresh : FilteringStdoutLogSink := ⟨([], 0)⟩

/-- `FilteringStdoutLogSink::log`.  The two calls of the mask come first; if
either throws, the call is left before anything is written or assigned. -/
def FilteringStdoutLogSink.log (mask : Str → Except Exn Str)
    (self : FilteringStdoutLogSink) (msg : Str) : Call FilteringStdoutLogSink :=
  match mask msg, mask self.last_seen.1 with
  | .error e, _ => ⟨self, [], some e⟩
  | .ok _, .error e => ⟨self, [], some e⟩
  | .ok key, .ok lastKey =>
    if key ≠ lastKey then
      let closing : List Write :=
        if self.last_seen.2 ≠ 0 then [.repeated self.last_seen.2, .endl]
        else if self.last_seen.1 ≠ [] then [.endl]
        else []
      ⟨⟨(msg, 0)⟩, closing ++ [.text msg], none⟩
    else
      ⟨⟨(self.last_seen.1, (self.last_seen.2 + 1) % 2 ^ 64)⟩, [], none⟩

/-- `FilteringStdoutLogSink::~FilteringStdoutLogSink`: the writes made by the
destructor. -/
def FilteringStdoutLogSink.destroy (self : FilteringStdoutLogSink) : List Write :=
  if self.last_seen.1 ≠ [] ∧ self.last_seen.2 ≠ 0 then [.repeated self.last_seen.2, .endl]
  else []

/-- Calls `log` on a sink for each line of a list in turn; a throwing call ends
the sequence. -/
def FilteringStdoutLogSink.logAll (mask : Str → Except Exn Str) :
    FilteringStdoutLogSink → List Str → Call FilteringStdoutLogSink
  | s, [] => ⟨s, [], none⟩
  | s, msg :: rest =>
    let r := s.log mask msg
    match r.thrown with
    | some e => ⟨r.self, r.out, some e⟩
    | none =>
      let r2 := FilteringStdoutLogSink.logAll mask r.self rest
      ⟨r2.self, r.out ++ r2.out, r2.thrown⟩

/-- The repeat counter does not wrap: with `count` repeats of the stored line
pending, no line of `lines` whose key repeats that of the run it belongs to meets
a counter already at `SIZE_MAX = 2 ^ 64 - 1`.  In short, no run has `2 ^ 64` or
more repeats. -/
def FilteringStdoutLogSink.noWrap (mask : Str → Except Exn Str) : Nat → Str → List Str → Prop
  | _, _, [] => True
  | count, stored, msg :: rest =>
    (mask msg = mask stored →
      count < 2 ^ 64 - 1 ∧ FilteringStdoutLogSink.noWrap mask (count + 1) stored rest) ∧
    (mask msg ≠ mask stored → FilteringStdoutLogSink.noWrap mask 0 msg rest)

/-- Life of one sink: constructed, fed the lines in turn, then destroyed.
Gives everything written to standard output. -/
def FilteringStdoutLogSink.session (mask : Str → Except Exn Str) (lines : List Str) :
    List Write :=
  let r := FilteringStdoutLogSink.logAll mask FilteringStdoutLogSink.fresh lines
  r.out ++ r.self.destroy

/-! ## `LogSink`: the type-erasing wrapper -/

/-- A `LogSink` holds (behind `m_concept`) a `LogSinkModel<Concrete>`, that is a
sink object `m_sink` of some type `Concrete` together with that type's `log`.
Each registration of a logger owns its model: the shared pointer is copied only
while `m_sinks` is built, so no two entries of one logger alias a sink. -/
structure LogSink where
  Concrete : Type
  m_sink : Concrete
  concreteLog : Concrete → Str → Call Concrete

/-- `LogSink::log`: forwards to `m_concept->log(msg)`, i.e. `m_sink.log(msg)`. -/
def LogSink.log (self : LogSink) (msg : Str) : Call LogSink :=
  let r := self.concreteLog self.m_sink msg
  ⟨{ self with m_sink := r.self }, r.out, r.thrown⟩

/-- Wraps a `StdoutLogSink`. -/
def LogSink.ofStdout (s : StdoutLogSink) : LogSink := ⟨StdoutLogSink, s, StdoutLogSink.log⟩

/-- Wraps a `FilteringStdoutLogSink<MsgMask>`. -/
def LogSink.ofFiltering (mask : Str → Except Exn Str) (s : FilteringStdoutLogSink) : LogSink :=
  ⟨FilteringStdoutLogSink, s, FilteringStdoutLogSink.log mask⟩

/-! ## `Logger` -/

/-- Data members of `Logger` that `should_log` and `log` use: the threshold and
the named sinks, in registration order.  (`m_formatter` has no state and is not
touched by either.) -/
structure Logger where
  m_level : LogLevel
  m_sinks : List (String × LogSink)

/-- `Logger::should_log<Level>`. -/
def Logger.should_log (Level : LogLevel) (self : Logger) : Bool :=
  decide (self.m_level ≤ Level)

/-- The loop `for (auto& sink : m_sinks) sink.second.log(msg);` of `Logger::log`.
There is no handler around the call, so an exception from a sink leaves the loop
with the remaining sinks untouched. -/
def Logger.logLoop : List (String × LogSink) → Str → Call (List (String × LogSink))
  | [], _ => ⟨[], [], none⟩
  | sink :: rest, msg =>
    let r := sink.2.log msg
    match r.thrown with
    | some e => ⟨(sink.1, r.self) :: rest, r.out, some e⟩
    | none =>
      let r2 := Logger.logLoop rest msg
      ⟨(sink.1, r.self) :: r2.self, r.out ++ r2.out, r2.thrown⟩

/-- `Logger::log<Level>`. -/
def Logger.log (Level : LogLevel) (self : Logger) (msg : Str) : Call Logger :=
  if !self.should_log Level then ⟨self, [], none⟩
  else
    let r := Logger.logLoop self.m_sinks msg
    ⟨{ self with m_sinks := r.self }, r.out, r.thrown⟩

/-- A logger, open to every level, with three sinks registered in the order
plain, deduplicating with the logger's mask (fresh), plain. -/
def threeSinkLogger : Logger :=
  ⟨LogLevel.debug,
    [("S1", LogSink.ofStdout ⟨⟩),
     ("S2", LogSink.ofFiltering loggerMask FilteringStdoutLogSink.fresh),
     ("S3", LogSink.ofStdout ⟨⟩)]⟩

/-- Calls `StdoutLogSink::log` for each line of a list in turn. -/
def StdoutLogSink.logAll : StdoutLogSink → List Str → Call StdoutLogSink
  | s, [] => ⟨s, [], none⟩
  | s, msg :: rest =>
    let r := s.log msg
    let r2 := StdoutLogSink.logAll r.self rest
    ⟨r2.self, r.out ++ r2.out, r2.thrown⟩

/-- A default-constructed `Logger`, from the default member initializers:
`m_level{LogLevel::debug}` and `m_sinks` with the single entry `"default"`
wrapping a `FilteringStdoutLogSink<...>{}` with the logger's mask.  The
temporaries copied while the entry is built are destroyed in their fresh state. -/
def Logger.defaultConstructed : Logger :=
  ⟨LogLevel.debug, [("default", LogSink.ofFiltering loggerMask FilteringStdoutLogSink.fresh)]⟩

/-- Objects a `Logger&` returned by `get_logger` can designate: the
function-local `static ... logger` is the only one. -/
inductive Ref where
  | get_logger_static
deriving DecidableEq, Repr

/-- Static storage of one instantiation of `get_logger`: the local `logger`,
`none` until its initialization has run. -/
structure Statics where
  logger : Option Logger

/-- `get_logger()`: the first call initializes the local static with a
default-constructed `Logger`; every call returns a reference to it. -/
def get_logger (st : Statics) : Ref × Statics :=
  match st.logger with
  | some _ => (Ref.get_logger_static, st)
  | none => (Ref.get_logger_static, ⟨some Logger.defaultConstructed⟩)

/-- Reading through a reference. -/
def Statics.read (st : Statics) : Ref → Option Logger
  | .get_logger_static => st.logger

/-- State of the designated object after a mutation through a reference. -/
def Statics.write (_st : Statics) : Ref → Logger → Statics
  | .get_logger_static, lg => ⟨some lg⟩

/-! ## `log_level_string`, `DefaultFormatter` and the entry points -/

/-- `log_level_string<Level>()`; the `static_assert(Level < LogLevel::disabled)`
is the proof argument. -/
def log_level_string (Level : LogLevel) (h : Level.val < LogLevel.disabled.val) : Str :=
  match Level, h with
  | .debug, _ => "Debug".data
  | .info, _ => "Info".data
  | .warning, _ => "Warning".data
  | .error, _ => "Error".data
  | .critical, _ => "Critical".data
  | .disabled, h => absurd h (by decide)

/-- `DefaultFormatter::format_log<WithSrcLoc>` on the named arguments `datetime`,
`level`, `src_loc`, `msg`.  Without location the format string does not mention
`src_loc`, whether or not the caller passes it. -/
def DefaultFormatter.format_log (WithSrcLoc : Bool) (datetime level src_loc msg : Str) : Str :=
  if WithSrcLoc then datetime ++ "|".data ++ level ++ "|".data ++ src_loc ++ "|".data ++ msg
  else datetime ++ "|".data ++ level ++ "||".data ++ msg

/-- The parts of `std::source_location` the logger reads. -/
structure source_location where
  file_name : Str
  function_name : Str
  line : Nat
deriving DecidableEq, Repr

/-- The text `fmt::format` gives for `file_name:function_name:line`, the line in
decimal. -/
def source_location.text (src_loc : source_location) : Str :=
  src_loc.file_name ++ ":".data ++ src_loc.function_name ++ ":".data
    ++ Nat.toDigits 10 src_loc.line

/-! The ten entry points.  `datetime` is the text of `system_clock::now()` under
the pattern `%Y%m%d-%X`, `msg` the text `fmt::format(fmt_str, args...)`, both
produced outside the logger.  `EnableSrcLocation` is the template argument of
`Logger`.  The overloads taking a `std::source_location` carry the suffix `_loc`. -/

/-- `Logger::debug(src_loc, fmt_str, args...)`. -/
def Logger.debug_loc (EnableSrcLocation : Bool) (self : Logger) (datetime : Str)
    (src_loc : source_location) (msg : Str) : Call Logger :=
  Logger.log LogLevel.debug self
    (DefaultFormatter.format_log EnableSrcLocation datetime
      (log_level_string LogLevel.debug (by decide)) src_loc.text msg)

/-- `Logger::info(src_loc, fmt_str, args...)`. -/
def Logger.info_loc (EnableSrcLocation : Bool) (self : Logger) (datetime : Str)
    (src_loc : source_location) (msg : Str) : Call Logger :=
  Logger.log LogLevel.info self
    (DefaultFormatter.format_log EnableSrcLocation datetime
      (log_level_string LogLevel.info (by decide)) src_loc.text msg)

/-- `Logger::warning(src_loc, fmt_str, args...)`. -/
def Logger.warning_loc (EnableSrcLocation : Bool) (self : Logger) (datetime : Str)
    (src_loc : source_location) (msg : Str) : Call Logger :=
  Logger.log LogLevel.warning self
    (DefaultFormatter.format_log EnableSrcLocation datetime
      (log_level_string LogLevel.warning (by decide)) src_loc.text msg)

/-- `Logger::error(src_loc, fmt_str, args...)`. -/
def Logger.error_loc (EnableSrcLocation : Bool) (self : Logger) (datetime : Str)
    (src_loc : source_location) (msg : Str) : Call Logger :=
  Logger.log LogLevel.error self
    (DefaultFormatter.format_log EnableSrcLocation datetime
      (log_level_string LogLevel.error (by decide)) src_loc.text msg)

/-- `Logger::critical(src_loc, fmt_str, args...)`. -/
def Logger.critical_loc (EnableSrcLocation : Bool) (self : Logger) (datetime : Str)
    (src_loc : source_location) (msg : Str) : Call Logger :=
  Logger.log LogLevel.critical self
    (DefaultFormatter.format_log EnableSrcLocation datetime
      (log_level_string LogLevel.critical (by decide)) src_loc.text msg)

/-- `Logger::debug(fmt_str, args...)`: no `src_loc` argument is passed on. -/
def Logger.debug (self : Logger) (datetime msg : Str) : Call Logger :=
  Logger.log LogLevel.debug self
    (DefaultFormatter.format_log false datetime
      (log_level_string LogLevel.debug (by decide)) [] msg)

/-- `Logger::info(fmt_str, args...)`. -/
def Logger.info (self : Logger) (datetime msg : Str) : Call Logger :=
  Logger.log LogLevel.info self
    (DefaultFormatter.format_log false datetime
      (log_level_string LogLevel.info (by decide)) [] msg)

/-- `Logger::warning(fmt_str, args...)`. -/
def Logger.warning (self : Logger) (datetime msg : Str) : Call Logger :=
  Logger.log LogLevel.warning self
    (DefaultFormatter.format_log false datetime
      (log_level_string LogLevel.warning (by decide)) [] msg)

/-- `Logger::error(fmt_str, args...)`. -/
def Logger.error (self : Logger) (datetime msg : Str) : Call Logger :=
  Logger.log LogLevel.error self
    (DefaultFormatter.format_log false datetime
      (log_level_string LogLevel.error (by decide)) [] msg)

/-- `Logger::critical(fmt_str, args...)`. -/
def Logger.critical (self : Logger) (datetime msg : Str) : Call Logger :=
  Logger.log LogLevel.critical self
    (DefaultFormatter.format_log false datetime
      (log_level_string LogLevel.critical (by decide)) [] msg)

/-- `Logger::LogCtx`: the stored location.  Its other member, `Logger& m_logger`,
is a reference; the logger it designates is passed to each method and returned in
the `Call`. -/
structure LogCtx where
  m_src_loc : source_location
deriving DecidableEq, Repr

/-- `Logger::with_ctx(src_loc)`. -/
def Logger.with_ctx (src_loc : source_location) : LogCtx := ⟨src_loc⟩

/-- `LogCtx::debug`. -/
def LogCtx.debug (EnableSrcLocation : Bool) (self : LogCtx) (m_logger : Logger)
    (datetime msg : Str) : Call Logger :=
  m_logger.debug_loc EnableSrcLocation datetime self.m_src_loc msg

/-- `LogCtx::info`. -/
def LogCtx.info (EnableSrcLocation : Bool) (self : LogCtx) (m_logger : Logger)
    (datetime msg : Str) : Call Logger :=
  m_logger.info_loc EnableSrcLocation datetime self.m_src_loc msg

/-- `LogCtx::warning`. -/
def LogCtx.warning (EnableSrcLocation : Bool) (self : LogCtx) (m_logger : Logger)
    (datetime msg : Str) : Call Logger :=
  m_logger.warning_loc EnableSrcLocation datetime self.m_src_loc msg

/-- `LogCtx::error`. -/
def LogCtx.error (EnableSrcLocation : Bool) (self : LogCtx) (m_logger : Logger)
    (datetime msg : Str) : Call Logger :=
  m_logger.error_loc EnableSrcLocation datetime self.m_src_loc msg

/-- `LogCtx::critical`. -/
def LogCtx.critical (EnableSrcLocation : Bool) (self : LogCtx) (m_logger : Logger)
    (datetime msg : Str) : Call Logger :=
  m_logger.critical_loc EnableSrcLocation datetime self.m_src_loc msg

/-- The field slots of a line: the pieces between the delimiters, in order. -/
def fields : Str → List Str
  | [] => [[]]
  | c :: cs =>
    if c = '|' then [] :: fields cs
    else
      match fields cs with
      | [] => [[c]]
      | f :: fs => (c :: f) :: fs

end logger2

/-! # The logger of `logger/logger.cpp` -/

namespace logger

/-- The enumerators of `Logger::LogLevel`, in declaration order. -/
inductive LogLevel where
  | Info
  | Debug
  | Warning
  | Error
  | Critical
  | Disabled
deriving DecidableEq, Repr

/-- Underlying value of an enumerator. -/
def LogLevel.val : LogLevel → Nat
  | .Info => 0
  | .Debug => 1
  | .Warning => 2
  | .Error => 3
  | .Critical => 4
  | .Disabled => 5

/-- The built-in `<=` of a scoped enumeration compares the underlying values. -/
instance : LE LogLevel := ⟨fun a b => a.val ≤ b.val⟩

instance (a b : LogLevel) : Decidable (a ≤ b) := inferInstanceAs (Decidable (a.val ≤ b.val))

/-- What a `std::ostream&` designates. -/
inductive Stream where
  | cout
  | cerr
  | other (id : Nat)
deriving DecidableEq, Repr

/-- Data members of `Logger`. -/
structure Logger where
  m_out_stream : Stream
  m_err_stream : Stream
  m_level : LogLevel
deriving DecidableEq, Repr

/-- The constructor `Logger(level, out_stream, err_stream)`. -/
def Logger.construct (level : LogLevel) (out_stream err_stream : Stream) : Logger :=
  ⟨out_stream, err_stream, level⟩

/-- The constructor with all default arguments: `Logger()`. -/
def Logger.constructDefault : Logger :=
  Logger.construct LogLevel.Info Stream.cout Stream.cerr

/-- `Logger::log_level_str<TLogLevel>()`. -/
def Logger.log_level_str : LogLevel → List Char
  | .Info => "[Info]".data
  | .Debug => "[Debug]".data
  | .Warning => "[Warning]".data
  | .Error => "[Error]".data
  | .Critical => "[Critical]".data
  | .Disabled => "[Disabled]".data

/-- `Logger::log<TLogLevel>(os, msg)`: the characters written, with the stream
they go to.  The logger itself is not modified. -/
def Logger.log (TLogLevel : LogLevel) (self : Logger) (os : Stream) (msg : List Char) :
    List (Stream × List Char) :=
  if TLogLevel ≤ self.m_level then
    [(os, Logger.log_level_str TLogLevel ++ " ".data ++ msg ++ ['\n'])]
  else []

/-- `Logger::log_info`; `msg` is the text `std::format(fmt_str, fmt_args...)`. -/
def Logger.log_info (self : Logger) (msg : List Char) : List (Stream × List Char) :=
  Logger.log LogLevel.Info self self.m_out_stream msg

/-- `Logger::log_warning`. -/
def Logger.log_warning (self : Logger) (msg : List Char) : List (Stream × List Char) :=
  Logger.log LogLevel.Warning self self.m_out_stream msg

/-- `Logger::log_error`. -/
def Logger.log_error (self : Logger) (msg : List Char) : List (Stream × List Char) :=
  Logger.log LogLevel.Error self self.m_err_stream msg

/-- `Logger::log_debug`. -/
def Logger.log_debug (self : Logger) (msg : List Char) : List (Stream × List Char) :=
  Logger.log LogLevel.Debug self self.m_err_stream msg

/-- `Logger::log_critical`. -/
def Logger.log_critical (self : Logger) (msg : List Char) : List (Stream × List Char) :=
  Logger.log LogLevel.Critical self self.m_err_stream msg

/-- Objects a `Logger&` returned by `global::get_logger` can designate: the
function-local `static Logger logger` is the only one. -/
inductive Ref where
  | get_logger_static
deriving DecidableEq, Repr

/-- Static storage of `global::get_logger`: the local `logger`, `none` until its
initialization has run. -/
structure Statics where
  logger : Option Logger
deriving DecidableEq, Repr

/-- `global::get_logger(params)`: the first call initializes the local static,
from `params` when it has a value and by `Logger()` otherwise; every call returns
a reference to that static. -/
def global.get_logger (params : Option (LogLevel × Stream × Stream)) (st : Statics) :
    Ref × Statics :=
  match st.logger with
  | some _ => (Ref.get_logger_static, st)
  | none =>
    match params with
    | some (level, out_stream, err_stream) =>
      (Ref.get_logger_static, ⟨some (Logger.construct level out_stream err_stream)⟩)
    | none => (Ref.get_logger_static, ⟨some Logger.constructDefault⟩)

/-- Reading through a reference. -/
def Statics.read (st : Statics) : Ref → Option Logger
  | .get_logger_static => st.logger

/-- State of the designated object after a mutation through a reference. -/
def Statics.write (_st : Statics) : Ref → Logger → Statics
  | .get_logger_static, lg => ⟨some lg⟩

end logger

/-! # Table-driven population count: `popcount/popcount2.cpp` and `popcount/popcount1.cpp`

Conversions that can change a value (casts to a narrower unsigned type, stores
into table entries) are explicit reductions modulo a power of two; the types
`std::uint_leastN_t` are taken to have exactly `N` bits.  Sums of bit counts stay
far below the range of `unsigned` and `int` and are plain natural numbers.
`std::array::operator[]` is a lookup that fails outside the array. -/

/-- `std::popcount` on an unsigned value of `bits` bits: the number of positions
below `bits` at which the value has a 1. -/
def std_popcount (bits v : Nat) : Nat := (List.range bits).countP (fun i => v.testBit i)

namespace popcount2

/-- Width of `uint_least_t<NBitWidth>`: the first of the 8, 16, 32 and 64 bit
types with at least `NBitWidth` bits. -/
def uint_least_bits (NBitWidth : Nat) : Nat :=
  if NBitWidth ≤ 8 then 8 else if NBitWidth ≤ 16 then 16 else if NBitWidth ≤ 32 then 32 else 64

/-- The lambda `popcount` inside `get_bit_count_table<NBitWidth>`: the loop
`for (i = 0; i < NBitWidth; ++i) count += ((val >> i) & 1)`. -/
def get_bit_count_table.popcount (NBitWidth val : Nat) : Nat :=
  (List.range NBitWidth).foldl (fun count i => count + ((val >>> i) &&& 1)) 0

/-- `get_bit_count_table<NBitWidth>()`: `1ul << NBitWidth` entries of type
`std::uint_least8_t`, entry `NIdxs` being `popcount(NIdxs)` with the index
converted to `entry_type`. -/
def get_bit_count_table (NBitWidth : Nat) : List Nat :=
  (List.range (1 <<< NBitWidth)).map
    (fun NIdxs =>
      get_bit_count_table.popcount NBitWidth (NIdxs % 2 ^ uint_least_bits NBitWidth) % 2 ^ 8)

/-- The loop of `popcount_lut<NTableBitWidth>` with the given number of rounds
still to run: look up the low chunk `mask & u_val`, converted to
`uint_least_t<NTableBitWidth>`, add the entry, shift `u_val` right. -/
def popcount_lut.loop (NTableBitWidth bits : Nat) (bit_count_lut : List Nat) (mask : Nat) :
    Nat → Nat → Nat → Option Nat
  | 0, _, count => some count
  | n + 1, u_val, count =>
    match bit_count_lut[(mask &&& u_val) % 2 ^ uint_least_bits NTableBitWidth]? with
    | none => none
    | some c =>
      popcount_lut.loop NTableBitWidth bits bit_count_lut mask n
        ((u_val >>> NTableBitWidth) % 2 ^ bits) (count + c)

/-- `popcount_lut<NTableBitWidth>(val)` for `val` of an integer type of `bits`
bits (`sizeof(u_type) * CHAR_BIT`); `none` if a lookup leaves the table. -/
def popcount_lut (NTableBitWidth bits : Nat) (val : Int) : Option Nat :=
  let u_val := (val % 2 ^ bits).toNat
  let divisions := 1 + bits / NTableBitWidth
  let bit_count_lut := get_bit_count_table NTableBitWidth
  let mask := (1 <<< NTableBitWidth) - 1
  popcount_lut.loop NTableBitWidth bits bit_count_lut mask divisions u_val 0

end popcount2

namespace popcount1

/-- The lambda `popcount` inside `get_bit_count_table`: eight unrolled terms. -/
def get_bit_count_table.popcount (val : Nat) : Nat :=
  (val &&& 1) + ((val >>> 1) &&& 1) + ((val >>> 2) &&& 1) + ((val >>> 3) &&& 1) +
    ((val >>> 4) &&& 1) + ((val >>> 5) &&& 1) + ((val >>> 6) &&& 1) + ((val >>> 7) &&& 1)

/-- `get_bit_count_table()`: 256 entries of type `std::uint_least8_t`, entry
`NIdxs` being `popcount(NIdxs)` with the index converted to `std::uint_least8_t`. -/
def get_bit_count_table : List Nat :=
  (List.range 256).map (fun NIdxs => get_bit_count_table.popcount (NIdxs % 2 ^ 8) % 2 ^ 8)

/-- The loop of `popcount_lut` with the given number of rounds still to run: look
up `static_cast<std::uint8_t>(u_val)`, add the entry, shift `u_val` right by 8. -/
def popcount_lut.loop (bits : Nat) (bit_count_lut : List Nat) : Nat → Nat → Nat → Option Nat
  | 0, _, count => some count
  | n + 1, u_val, count =>
    match bit_count_lut[u_val % 2 ^ 8]? with
    | none => none
    | some c => popcount_lut.loop bits bit_count_lut n ((u_val >>> 8) % 2 ^ bits) (count + c)

/-- `popcount_lut(val)` for `val` of an integer type of `bits` bits; `none` if a
lookup leaves the table. -/
def popcount_lut (bits : Nat) (val : Int) : Option Nat :=
  let u_val := (val % 2 ^ bits).toNat
  let divisions := 1 + bits / 8
  let bit_count_lut := get_bit_count_table
  popcount_lut.loop bits bit_count_lut divisions u_val 0

end popcount1

/-! # Bounds-checked array with an unchecked proxy: `unsafe_proxy/unsafe_proxy.cpp`

References to elements are positions inside the array.  The checked subscript
gives an optional reference; the unchecked one of the proxy is
`std::array::operator[]`, whose use outside the array is undefined behaviour and
is an error value here. -/

namespace unsafe_proxy

/-- Undefined behaviour: an unchecked subscript outside the array. -/
inductive UB where
  | out_of_bounds
deriving DecidableEq, Repr

/-- `SafeArrayImpl<T, NSize>`: the data member `std::array<T, NSize> m_array`. -/
structure SafeArrayImpl (T : Type) (NSize : Nat) where
  m_array : Fin NSize → T

/-- Reading through a reference to an element (`.get()` of the
`std::reference_wrapper`, or the use of a `T&`). -/
def SafeArrayImpl.get {T : Type} {NSize : Nat} (self : SafeArrayImpl T NSize)
    (r : Fin NSize) : T :=
  self.m_array r

/-- Assigning through a reference to an element: the array afterwards. -/
def SafeArrayImpl.assign {T : Type} {NSize : Nat} (self : SafeArrayImpl T NSize)
    (r : Fin NSize) (v : T) : SafeArrayImpl T NSize :=
  ⟨Function.update self.m_array r v⟩

/-- The checked `SafeArrayImpl::operator[](idx)`: `std::nullopt` when
`idx >= NSize`, else `std::ref(m_array[idx])`. -/
def SafeArrayImpl.subscript {T : Type} {NSize : Nat} (_self : SafeArrayImpl T NSize)
    (idx : Nat) : Option (Fin NSize) :=
  if h : idx ≥ NSize then none else some ⟨idx, Nat.lt_of_not_ge h⟩

/-- The checked `SafeArrayImpl::operator[](idx) const`: `std::nullopt` when
`idx >= NSize`, else `std::cref(m_array[idx])`. -/
def SafeArrayImpl.subscript_const {T : Type} {NSize : Nat} (_self : SafeArrayImpl T NSize)
    (idx : Nat) : Option (Fin NSize) :=
  if h : idx ≥ NSize then none else some ⟨idx, Nat.lt_of_not_ge h⟩

/-- `SafeArrayImpl::Unsafe<TConst>`: the proxy with its member `m_ref`, the array
it refers to. -/
structure Unsafe (TConst : Bool) (T : Type) (NSize : Nat) where
  m_ref : SafeArrayImpl T NSize

/-- `Unsafe::operator[](idx)`: `m_ref.m_array[idx]`, unchecked. -/
def Unsafe.subscript {TConst : Bool} {T : Type} {NSize : Nat} (_self : Unsafe TConst T NSize)
    (idx : Nat) : Except UB (Fin NSize) :=
  if h : idx < NSize then .ok ⟨idx, h⟩ else .error UB.out_of_bounds

/-- `Unsafe::safe()`: the array referred to. -/
def Unsafe.safe {TConst : Bool} {T : Type} {NSize : Nat} (self : Unsafe TConst T NSize) :
    SafeArrayImpl T NSize :=
  self.m_ref

/-- `UnsafeProvider::unsafe(func)`: invokes `func` on an `Unsafe<false>` built
from `*this`.  `func` works on the array through the proxy: it gives the array as
it leaves it. -/
def UnsafeProvider.unsafe {T : Type} {NSize : Nat} (self : SafeArrayImpl T NSize)
    (func : Unsafe false T NSize → Except UB (SafeArrayImpl T NSize)) :
    Except UB (SafeArrayImpl T NSize) :=
  func ⟨self⟩

/-- `UnsafeProvider::const_unsafe(func)`: invokes `func` on an `Unsafe<true>`
built from `*this`; through a reference to const `func` can read only. -/
def UnsafeProvider.const_unsafe {T α : Type} {NSize : Nat} (self : SafeArrayImpl T NSize)
    (func : Unsafe true T NSize → Except UB α) : Except UB α :=
  func ⟨self⟩

/-- The callback whose body is `unsafe_api[i] = v`. -/
def assignAt {T : Type} {NSize : Nat} (i : Nat) (v : T) (unsafe_api : Unsafe false T NSize) :
    Except UB (SafeArrayImpl T NSize) :=
  match unsafe_api.subscript i with
  | .error e => .error e
  | .ok r => .ok (unsafe_api.m_ref.assign r v)

/-- The callback whose body reads `unsafe_api[i]`. -/
def readAt {T : Type} {NSize : Nat} (i : Nat) (unsafe_api : Unsafe true T NSize) :
    Except UB T :=
  match unsafe_api.subscript i with
  | .error e => .error e
  | .ok r => .ok (unsafe_api.m_ref.get r)

/-- The array of `main`: `SafeArray<int, 10> sa{}`, all elements zero. -/
def main_sa : SafeArrayImpl Int 10 := ⟨fun _ => 0⟩

end unsafe_proxy

/-! # Observable value: `observable_value/observable.cpp`

A subscriber, a `std::function<void(TValueType)>`, acts on the rest of the
program state, of some type `W`, and may throw. -/

namespace observable

/-- Outcome of running code that acts on the program state. -/
structure Outcome (W : Type) where
  /-- The program state afterwards. -/
  world : W
  /-- Whether an exception left the code. -/
  thrown : Bool

/-- The data members of `Observable<TValueType, TUpdater>`. -/
structure Observable (TValueType W : Type) where
  m_subs : List (TValueType → W → Outcome W)
  m_value : TValueType

/-- The constructor `Observable()`: `m_value{}`, no subscribers; `init` is the
value-initialized `TValueType`. -/
def Observable.construct {TValueType W : Type} (init : TValueType) : Observable TValueType W :=
  ⟨[], init⟩

/-- The constructors `Observable(const TValueType&)` and `Observable(TValueType&&)`. -/
def Observable.constructFrom {TValueType W : Type} (value : TValueType) :
    Observable TValueType W :=
  ⟨[], value⟩

/-- The loop of `Notify`: `for (const auto& sub : m_subs) sub(last);`.  An
exception from a subscriber leaves the loop. -/
def Observable.notifyLoop {TValueType W : Type} :
    List (TValueType → W → Outcome W) → TValueType → W → Outcome W
  | [], _, w => ⟨w, false⟩
  | sub :: rest, last, w =>
    let r := sub last w
    if r.thrown then r else Observable.notifyLoop rest last r.world

/-- `Observable::Notify(last)`. -/
def Observable.Notify {TValueType W : Type} (self : Observable TValueType W)
    (last : TValueType) (w : W) : Outcome W :=
  Observable.notifyLoop self.m_subs last w

/-- `Observable::operator=(const TValueType& value)`: `m_value = value;
Notify(m_value);`. -/
def Observable.assign {TValueType W : Type} (self : Observable TValueType W)
    (value : TValueType) (w : W) : Observable TValueType W × Outcome W :=
  let self2 : Observable TValueType W := { self with m_value := value }
  (self2, self2.Notify self2.m_value w)

/-- `Observable::operator=(TValueType&& value)`: `m_value = std::move(value);
Notify(m_value);`. -/
def Observable.assignMove {TValueType W : Type} (self : Observable TValueType W)
    (value : TValueType) (w : W) : Observable TValueType W × Outcome W :=
  let self2 : Observable TValueType W := { self with m_value := value }
  (self2, self2.Notify self2.m_value w)

/-- The default `TUpdater`: `held = new_val; return true;`.  An updater gives its
result and the held value as it leaves it. -/
def defaultUpdater {TValueType : Type} (new_val _held : TValueType) : Bool × TValueType :=
  (true, new_val)

/-- `Observable::Update(val)`, either overload: `if (updater(val, m_value))
Notify(m_value);`.  (With the default updater, whose first parameter is
`TValueType&&`, only the overload taking `TValueType&&` is well-formed.) -/
def Observable.Update {TValueType W : Type} (updater : TValueType → TValueType → Bool × TValueType)
    (self : Observable TValueType W) (val : TValueType) (w : W) :
    Observable TValueType W × Outcome W :=
  let u := updater val self.m_value
  let self2 : Observable TValueType W := { self with m_value := u.2 }
  if u.1 then (self2, self2.Notify self2.m_value w) else (self2, ⟨w, false⟩)

/-- `Observable::Subscribe(func)`: `m_subs.push_back(std::move(func))`. -/
def Observable.Subscribe {TValueType W : Type} (self : Observable TValueType W)
    (func : TValueType → W → Outcome W) : Observable TValueType W :=
  { self with m_subs := self.m_subs ++ [func] }

/-- A subscriber that records its call, with its number and the value it got,
at the end of a list. -/
def recorder (id : Nat) (last : Int) (w : List (Nat × Int)) : Outcome (List (Nat × Int)) :=
  ⟨w ++ [(id, last)], false⟩

/-- A subscriber that throws and leaves the program state as it found it. -/
def thrower (_last : Int) (w : List (Nat × Int)) : Outcome (List (Nat × Int)) :=
  ⟨w, true⟩

end observable

namespace logger2

/-! ## Basic facts about the sinks -/

theorem render_append (xs ys : List Write) : render (xs ++ ys) = render xs ++ render ys := by
  induction xs with
  | nil => rfl
  | cons w ws ih => simp [render, ih]

theorem verbatimLines_append (xs ys : List Write) :
    verbatimLines (xs ++ ys) = verbatimLines xs + verbatimLines ys := by
  induction xs with
  | nil => simp [verbatimLines]
  | cons w ws ih => cases w <;> simp [verbatimLines, ih, Nat.add_right_comm]

theorem repeatSum_append (xs ys : List Write) :
    repeatSum (xs ++ ys) = repeatSum xs + repeatSum ys := by
  induction xs with
  | nil => simp [repeatSum]
  | cons w ws ih => cases w <;> simp [repeatSum, ih, Nat.add_assoc]

/-- The key-changed branch of `FilteringStdoutLogSink::log`. -/
theorem log_changed (mask : Str → Except Exn Str) (s : FilteringStdoutLogSink) (msg key lastKey : Str)
    (hk : mask msg = .ok key) (hl : mask s.last_seen.1 = .ok lastKey) (hne : key ≠ lastKey) :
    s.log mask msg =
      ⟨⟨(msg, 0)⟩,
        (if s.last_seen.2 ≠ 0 then [Write.repeated s.last_seen.2, Write.endl]
          else if s.last_seen.1 ≠ [] then [Write.endl] else []) ++ [Write.text msg],
        none⟩ := by
  simp [FilteringStdoutLogSink.log, hk, hl, hne]

/-- The repeat branch of `FilteringStdoutLogSink::log`. -/
theorem log_same (mask : Str → Except Exn Str) (s : FilteringStdoutLogSink) (msg key : Str)
    (hk : mask msg = .ok key) (hl : mask s.last_seen.1 = .ok key) :
    s.log mask msg = ⟨⟨(s.last_seen.1, (s.last_seen.2 + 1) % 2 ^ 64)⟩, [], none⟩ := by
  simp [FilteringStdoutLogSink.log, hk, hl]

/-- Feeding `n` lines whose key is the key of the stored line only counts, modulo
`2 ^ 64`. -/
theorem logAll_replicate_wrap (mask : Str → Except Exn Str) (msg key : Str)
    (hk : mask msg = .ok key) (n : Nat) :
    ∀ s : FilteringStdoutLogSink, mask s.last_seen.1 = .ok key → s.last_seen.2 < 2 ^ 64 →
      FilteringStdoutLogSink.logAll mask s (List.replicate n msg)
        = ⟨⟨(s.last_seen.1, (s.last_seen.2 + n) % 2 ^ 64)⟩, [], none⟩ := by
  induction n with
  | zero =>
    intro s _ hs
    rw [Nat.add_zero, Nat.mod_eq_of_lt hs]
    rfl
  | succ n ih =>
    intro s hl _
    have h1 := log_same mask s msg key hk hl
    have h2 := ih ⟨(s.last_seen.1, (s.last_seen.2 + 1) % 2 ^ 64)⟩ hl
      (Nat.mod_lt _ (by decide))
    have harith : ((s.last_seen.2 + 1) % 2 ^ 64 + n) % 2 ^ 64
        = (s.last_seen.2 + (n + 1)) % 2 ^ 64 := by
      rw [Nat.mod_add_mod, Nat.add_assoc, Nat.add_comm 1 n]
    rw [List.replicate_succ]
    simp only [FilteringStdoutLogSink.logAll, h1, h2, harith, List.append_nil]

/-- Feeding `n` lines whose key is the key of the stored line only counts, as
long as the counter stays below `2 ^ 64`. -/
theorem logAll_replicate_same (mask : Str → Except Exn Str) (msg key : Str)
    (hk : mask msg = .ok key) (n : Nat) (s : FilteringStdoutLogSink)
    (hl : mask s.last_seen.1 = .ok key) (hb : s.last_seen.2 + n < 2 ^ 64) :
    FilteringStdoutLogSink.logAll mask s (List.replicate n msg)
      = ⟨⟨(s.last_seen.1, s.last_seen.2 + n)⟩, [], none⟩ := by
  rw [logAll_replicate_wrap mask msg key hk n s hl (by omega), Nat.mod_eq_of_lt hb]

/-- Feeding `xs ++ ys` when no call on `xs` throws. -/
theorem logAll_append (mask : Str → Except Exn Str) (xs ys : List Str) :
    ∀ s : FilteringStdoutLogSink, (FilteringStdoutLogSink.logAll mask s xs).thrown = none →
      FilteringStdoutLogSink.logAll mask s (xs ++ ys)
        = ⟨(FilteringStdoutLogSink.logAll mask
              (FilteringStdoutLogSink.logAll mask s xs).self ys).self,
            (FilteringStdoutLogSink.logAll mask s xs).out ++
              (FilteringStdoutLogSink.logAll mask
                (FilteringStdoutLogSink.logAll mask s xs).self ys).out,
            (FilteringStdoutLogSink.logAll mask
              (FilteringStdoutLogSink.logAll mask s xs).self ys).thrown⟩ := by
  induction xs with
  | nil => intro s _; simp [FilteringStdoutLogSink.logAll]
  | cons x xs ih =>
    intro s h
    simp only [FilteringStdoutLogSink.logAll, List.cons_append] at h ⊢
    cases hx : (s.log mask x).thrown with
    | some e => simp [hx] at h
    | none =>
      simp only [hx, List.append_eq] at h ⊢
      rw [ih _ h]
      simp

theorem intersperse_cons_flatMap {α : Type} (sep a : α) (as : List α) :
    List.intersperse sep (a :: as) = a :: as.flatMap (fun x => [sep, x]) := by
  induction as generalizing a with
  | nil => simp
  | cons b bs ih => simp [List.intersperse, ih]

/-- A line on which the mask gives a non-empty key is not the empty line, when
the empty line has the empty key. -/
theorem ne_nil_of_key (mask : Str → Except Exn Str) (hempty : mask [] = .ok [])
    (l k : Str) (hk : mask l = .ok k) (hne : k ≠ []) : l ≠ [] := by
  intro h
  rw [h, hempty] at hk
  exact hne (Except.ok.inj hk).symm

/-- Rendering a run of lines each preceded by a line break. -/
theorem render_flatMap_lines (lines : List Str) :
    render (lines.flatMap (fun l => [Write.endl, Write.text l]))
      = (lines.flatMap (fun l => [['\n'], l])).flatten := by
  induction lines with
  | nil => rfl
  | cons l ls ih =>
    rw [List.flatMap_cons, List.flatMap_cons, render_append, ih]
    simp [render, Write.render]

/-- From an open, un-repeated line: lines whose keys are non-empty and change at
every step are each written after a line break, and the repeat count stays 0. -/
theorem logAll_distinct (mask : Str → Except Exn Str) (hempty : mask [] = .ok [])
    (lines : List Str) :
    ∀ s : FilteringStdoutLogSink, s.last_seen.2 = 0 → s.last_seen.1 ≠ [] →
      (∃ k, mask s.last_seen.1 = .ok k) →
      List.Chain (fun a b => mask a ≠ mask b) s.last_seen.1 lines →
      (∀ l ∈ lines, ∃ k, mask l = .ok k ∧ k ≠ []) →
      (FilteringStdoutLogSink.logAll mask s lines).thrown = none ∧
      (FilteringStdoutLogSink.logAll mask s lines).out
        = lines.flatMap (fun l => [Write.endl, Write.text l]) ∧
      (FilteringStdoutLogSink.logAll mask s lines).self.last_seen.2 = 0 := by
  induction lines with
  | nil => intro s h0 _ _ _ _; exact ⟨rfl, rfl, h0⟩
  | cons l rest ih =>
    intro s h0 hne hk0 hchain hkeys
    obtain ⟨k0, hk0⟩ := hk0
    obtain ⟨k, hk, hkne⟩ := hkeys l (List.mem_cons_self _ _)
    cases hchain with
    | cons hR hrest =>
      have hkk : k ≠ k0 := by
        intro h
        apply hR
        rw [hk0, hk, h]
      have hlog := log_changed mask s l k k0 hk hk0 hkk
      simp only [h0, ne_eq, not_true_eq_false, if_false, hne, not_false_eq_true, if_true]
        at hlog
      have hl : l ≠ [] := ne_nil_of_key mask hempty l k hk hkne
      obtain ⟨ht, ho, hs⟩ := ih ⟨(l, 0)⟩ rfl hl ⟨k, hk⟩ hrest
        (fun x hx => hkeys x (List.mem_cons_of_mem _ hx))
      simp only [FilteringStdoutLogSink.logAll, hlog]
      exact ⟨ht, by simp [ho], hs⟩

/-- From an open line: every later call is accounted for, either by a line
written verbatim or in the count of a suffix, the last possibly written by the
destructor; the pending repeat count of the starting state is carried along.
The counter must not wrap on the way. -/
theorem logAll_accounts (mask : Str → Except Exn Str) (hempty : mask [] = .ok [])
    (lines : List Str) :
    ∀ s : FilteringStdoutLogSink, s.last_seen.1 ≠ [] →
      (∃ k, mask s.last_seen.1 = .ok k) →
      (∀ l ∈ lines, ∃ k, mask l = .ok k ∧ k ≠ []) →
      FilteringStdoutLogSink.noWrap mask s.last_seen.2 s.last_seen.1 lines →
      (FilteringStdoutLogSink.logAll mask s lines).thrown = none ∧
      verbatimLines ((FilteringStdoutLogSink.logAll mask s lines).out ++
          (FilteringStdoutLogSink.logAll mask s lines).self.destroy)
        + repeatSum ((FilteringStdoutLogSink.logAll mask s lines).out ++
          (FilteringStdoutLogSink.logAll mask s lines).self.destroy)
        = lines.length + s.last_seen.2 := by
  induction lines with
  | nil =>
    intro s hne _ _ _
    refine ⟨rfl, ?_⟩
    simp only [FilteringStdoutLogSink.logAll, FilteringStdoutLogSink.destroy, List.nil_append,
      List.length_nil, Nat.zero_add]
    by_cases h2 : s.last_seen.2 = 0
    · simp [h2, verbatimLines, repeatSum]
    · simp [h2, hne, verbatimLines, repeatSum]
  | cons l rest ih =>
    intro s hne hk0 hkeys hruns
    obtain ⟨k0, hk0⟩ := hk0
    obtain ⟨k, hk, hkne⟩ := hkeys l (List.mem_cons_self _ _)
    have hrestkeys : ∀ x ∈ rest, ∃ k, mask x = .ok k ∧ k ≠ [] :=
      fun x hx => hkeys x (List.mem_cons_of_mem _ hx)
    simp only [FilteringStdoutLogSink.noWrap] at hruns
    by_cases hkk : k = k0
    · have hlog := log_same mask s l k hk (hkk ▸ hk0)
      obtain ⟨hlt, hrest⟩ := hruns.1 (by rw [hk, hk0, hkk])
      have hmod : (s.last_seen.2 + 1) % 2 ^ 64 = s.last_seen.2 + 1 :=
        Nat.mod_eq_of_lt (by omega)
      rw [hmod] at hlog
      obtain ⟨ht, hsum⟩ := ih ⟨(s.last_seen.1, s.last_seen.2 + 1)⟩ hne ⟨k0, hk0⟩ hrestkeys
        hrest
      simp only [FilteringStdoutLogSink.logAll, hlog, List.nil_append, List.length_cons]
      refine ⟨ht, ?_⟩
      rw [hsum]
      simp only []
      omega
    · have hlog := log_changed mask s l k k0 hk hk0 hkk
      have hl : l ≠ [] := ne_nil_of_key mask hempty l k hk hkne
      have hrest := hruns.2 (by
        rw [hk, hk0]
        intro h
        exact hkk (Except.ok.inj h))
      obtain ⟨ht, hsum⟩ := ih ⟨(l, 0)⟩ hl ⟨k, hk⟩ hrestkeys hrest
      simp only [FilteringStdoutLogSink.logAll, hlog, List.length_cons]
      refine ⟨ht, ?_⟩
      simp only [List.append_assoc, verbatimLines_append, repeatSum_append] at hsum ⊢
      by_cases h2 : s.last_seen.2 = 0
      · simp only [h2, ne_eq, not_true_eq_false, if_false]
        by_cases h1 : s.last_seen.1 = [] <;>
          simp [h1, verbatimLines, repeatSum] at hsum ⊢ <;> omega
      · simp only [h2, ne_eq, not_false_eq_true, if_true]
        simp [verbatimLines, repeatSum] at hsum ⊢
        omega

/-- A fresh sink given a line with a non-empty key once and `n` more times: the
line is written once and the counter holds `n` modulo `2 ^ 64`. -/
theorem logAll_fresh_run (mask : Str → Except Exn Str) (hempty : mask [] = .ok [])
    (A keyA : Str) (hA : mask A = .ok keyA) (hAne : keyA ≠ []) (n : Nat) :
    FilteringStdoutLogSink.logAll mask FilteringStdoutLogSink.fresh (List.replicate (n + 1) A)
      = ⟨⟨(A, n % 2 ^ 64)⟩, [Write.text A], none⟩ := by
  have h1 : FilteringStdoutLogSink.fresh.log mask A = ⟨⟨(A, 0)⟩, [Write.text A], none⟩ := by
    have := log_changed mask FilteringStdoutLogSink.fresh A keyA [] hA hempty hAne
    simpa [FilteringStdoutLogSink.fresh] using this
  have h2 := logAll_replicate_wrap mask A keyA hA n ⟨(A, 0)⟩ hA
    (show (0 : Nat) < 2 ^ 64 by decide)
  rw [List.replicate_succ]
  simp only [FilteringStdoutLogSink.logAll, h1, h2, Nat.zero_add, List.append_nil]

/-- A fresh sink given a line once and `n` more times, then a line with another
key, whatever `n`: what closes the run is decided by `n` modulo `2 ^ 64`. -/
theorem logAll_run_change_wrap (mask : Str → Except Exn Str) (hempty : mask [] = .ok [])
    (A B keyA keyB : Str) (hA : mask A = .ok keyA) (hB : mask B = .ok keyB)
    (hAB : keyA ≠ keyB) (hAne : keyA ≠ []) (n : Nat) :
    FilteringStdoutLogSink.logAll mask FilteringStdoutLogSink.fresh (List.replicate (n + 1) A ++ [B])
      = ⟨⟨(B, 0)⟩,
          [Write.text A] ++
            ((if n % 2 ^ 64 ≠ 0 then [Write.repeated (n % 2 ^ 64), Write.endl]
              else if A ≠ [] then [Write.endl] else []) ++ [Write.text B]),
          none⟩ := by
  have hrun := logAll_fresh_run mask hempty A keyA hA hAne n
  have h3 := log_changed mask ⟨(A, n % 2 ^ 64)⟩ B keyB keyA hB hA (Ne.symm hAB)
  rw [logAll_append mask _ _ _ (by rw [hrun]), hrun]
  simp only [FilteringStdoutLogSink.logAll, h3, List.append_nil]

/-- A fresh sink given `msg` once and `n` more times, `n` within the range of the
counter, then a line with another key: the first `msg`, the suffix counting `n`,
and the new line left open. -/
theorem logAll_run_change (mask : Str → Except Exn Str) (hempty : mask [] = .ok [])
    (A B keyA keyB : Str) (hA : mask A = .ok keyA) (hB : mask B = .ok keyB)
    (hAB : keyA ≠ keyB) (hAne : keyA ≠ []) (n : Nat) (hn : 1 ≤ n) (hn2 : n < 2 ^ 64) :
    FilteringStdoutLogSink.logAll mask FilteringStdoutLogSink.fresh (List.replicate (n + 1) A ++ [B])
      = ⟨⟨(B, 0)⟩, [Write.text A, Write.repeated n, Write.endl, Write.text B], none⟩ := by
  have hn0 : n ≠ 0 := by omega
  rw [logAll_run_change_wrap mask hempty A B keyA keyB hA hB hAB hAne n,
    Nat.mod_eq_of_lt hn2]
  simp [hn0]

/-- Runs never wrap the counter when the pending count plus the number of lines
stays within `SIZE_MAX`. -/
theorem noWrap_of_length (mask : Str → Except Exn Str) (lines : List Str) :
    ∀ (count : Nat) (stored : Str), count + lines.length ≤ 2 ^ 64 - 1 →
      FilteringStdoutLogSink.noWrap mask count stored lines := by
  induction lines with
  | nil => intro _ _ _; trivial
  | cons l rest ih =>
    intro count stored hb
    simp only [List.length_cons] at hb
    simp only [FilteringStdoutLogSink.noWrap]
    refine ⟨fun _ => ⟨by omega, ih _ _ (by omega)⟩, fun _ => ih _ _ (by omega)⟩

/-- In a line `ts|rest` whose `ts` has no delimiter, `find` gives the length of
`ts`. -/
theorem find_bar (ts rest : Str) (h : '|' ∉ ts) :
    find (ts ++ '|' :: rest) '|' = some ts.length := by
  induction ts with
  | nil => simp [find]
  | cons c cs ih =>
    have hc : c ≠ '|' := fun hc => h (hc ▸ List.mem_cons_self _ _)
    have hcs : '|' ∉ cs := fun hm => h (List.mem_cons_of_mem _ hm)
    simp [find, hc, ih hcs]

/-- The logger's key of `ts|rest` is `|rest`: the timestamp is dropped, the
delimiter stays. -/
theorem loggerMask_bar (ts rest : Str) (h : '|' ∉ ts) :
    loggerMask (ts ++ '|' :: rest) = .ok ('|' :: rest) := by
  have hne : ts ++ '|' :: rest ≠ [] := by simp
  simp only [loggerMask, if_neg hne, find_bar ts rest h, substr]
  have hle : ¬ ts.length > (ts ++ '|' :: rest).length := by
    simp only [List.length_append, List.length_cons]
    omega
  rw [if_neg hle, List.drop_left]

/-- Sink loop when a sink throws and those before it do not: the loop ends at
the throwing sink, the exception leaves it, the sinks after are not called. -/
theorem logLoop_throw (pre post : List (String × LogSink)) (name : String) (S : LogSink)
    (t : Str) (e : Exn) (hpre : ∀ s ∈ pre, (s.2.log t).thrown = none)
    (hS : (S.log t).thrown = some e) :
    Logger.logLoop (pre ++ (name, S) :: post) t
      = ⟨pre.map (fun s => (s.1, (s.2.log t).self)) ++ (name, (S.log t).self) :: post,
          pre.flatMap (fun s => (s.2.log t).out) ++ (S.log t).out, some e⟩ := by
  induction pre with
  | nil => simp [Logger.logLoop, hS]
  | cons s rest ih =>
    have hs := hpre s (List.mem_cons_self _ _)
    have hr := ih (fun x hx => hpre x (List.mem_cons_of_mem _ hx))
    simp only [List.cons_append, Logger.logLoop, hs, List.append_eq, hr, List.map_cons,
      List.flatMap_cons, List.append_assoc]

/-- Feeding lines that all have the key of the stored line only counts, as long
as the counter stays below `2 ^ 64`: the stored line stays, nothing is written. -/
theorem logAll_same_key (mask : Str → Except Exn Str) (key : Str) (lines : List Str) :
    ∀ s : FilteringStdoutLogSink, mask s.last_seen.1 = .ok key →
      (∀ l ∈ lines, mask l = .ok key) → s.last_seen.2 + lines.length < 2 ^ 64 →
      FilteringStdoutLogSink.logAll mask s lines
        = ⟨⟨(s.last_seen.1, s.last_seen.2 + lines.length)⟩, [], none⟩ := by
  induction lines with
  | nil => intro s _ _ _; rfl
  | cons l rest ih =>
    intro s hl hkeys hb
    simp only [List.length_cons] at hb
    have h1 := log_same mask s l key (hkeys l (List.mem_cons_self _ _)) hl
    have hmod : (s.last_seen.2 + 1) % 2 ^ 64 = s.last_seen.2 + 1 :=
      Nat.mod_eq_of_lt (by omega)
    rw [hmod] at h1
    have h2 := ih ⟨(s.last_seen.1, s.last_seen.2 + 1)⟩ hl
      (fun x hx => hkeys x (List.mem_cons_of_mem _ hx)) (by simp only []; omega)
    simp only [FilteringStdoutLogSink.logAll, h1, h2, List.length_cons]
    simp
    omega

/-- Feeding lines that all have the key of the stored line, whatever the counter
does: nothing is written, no call throws and the stored line stays. -/
theorem logAll_same_key_line (mask : Str → Except Exn Str) (key : Str) (lines : List Str) :
    ∀ s : FilteringStdoutLogSink, mask s.last_seen.1 = .ok key →
      (∀ l ∈ lines, mask l = .ok key) →
      (FilteringStdoutLogSink.logAll mask s lines).out = [] ∧
      (FilteringStdoutLogSink.logAll mask s lines).thrown = none ∧
      (FilteringStdoutLogSink.logAll mask s lines).self.last_seen.1 = s.last_seen.1 := by
  induction lines with
  | nil => intro s _ _; exact ⟨rfl, rfl, rfl⟩
  | cons l rest ih =>
    intro s hl hkeys
    have h1 := log_same mask s l key (hkeys l (List.mem_cons_self _ _)) hl
    obtain ⟨ho, ht, hs⟩ := ih ⟨(s.last_seen.1, (s.last_seen.2 + 1) % 2 ^ 64)⟩ hl
      (fun x hx => hkeys x (List.mem_cons_of_mem _ hx))
    simp only [FilteringStdoutLogSink.logAll, h1]
    refine ⟨?_, ht, hs⟩
    rw [ho]
    rfl

/-- Writes of the plain sink over a list of lines. -/
theorem stdout_logAll_out (lines : List Str) :
    ∀ s : StdoutLogSink,
      StdoutLogSink.logAll s lines
        = ⟨s, lines.flatMap (fun l => [Write.text l, Write.endl]), none⟩ := by
  induction lines with
  | nil => intro s; rfl
  | cons l rest ih =>
    intro s
    simp only [StdoutLogSink.logAll, StdoutLogSink.log, ih, List.flatMap_cons]

/-- Rendering lines each followed by a line break. -/
theorem render_flatMap_terminated (lines : List Str) :
    render (lines.flatMap (fun l => [Write.text l, Write.endl]))
      = (lines.map (fun l => l ++ ['\n'])).flatten := by
  induction lines with
  | nil => rfl
  | cons l ls ih =>
    rw [List.flatMap_cons, render_append, ih]
    simp [render, Write.render]

/-- In `ts|rest` with no delimiter in `ts`, dropping the characters before the
first delimiter leaves `|rest`. -/
theorem dropWhile_bar (ts rest : Str) (h : '|' ∉ ts) :
    (ts ++ '|' :: rest).dropWhile (fun c => c != '|') = '|' :: rest := by
  induction ts with
  | nil => simp [List.dropWhile]
  | cons c cs ih =>
    have hc : c ≠ '|' := fun hc => h (hc ▸ List.mem_cons_self _ _)
    have hcs : '|' ∉ cs := fun hm => h (List.mem_cons_of_mem _ hm)
    have hb : (c != '|') = true := by simp [hc]
    rw [List.cons_append, List.dropWhile_cons, if_pos hb]
    exact ih hcs

/-- A line containing the delimiter splits at its first occurrence. -/
theorem exists_split_bar (msg : Str) (h : '|' ∈ msg) :
    ∃ ts rest, msg = ts ++ '|' :: rest ∧ '|' ∉ ts := by
  induction msg with
  | nil => simp at h
  | cons c cs ih =>
    by_cases hc : c = '|'
    · exact ⟨[], cs, by simp [hc], by simp⟩
    · have hcs : '|' ∈ cs := by
        rcases List.mem_cons.mp h with h1 | h1
        · exact absurd h1.symm hc
        · exact h1
      obtain ⟨ts, rest, hsplit, hts⟩ := ih hcs
      refine ⟨c :: ts, rest, by simp [hsplit], ?_⟩
      intro hm
      rcases List.mem_cons.mp hm with h1 | h1
      · exact hc h1.symm
      · exact hts h1

/-- A line always has at least one field slot. -/
theorem fields_ne_nil (s : Str) : fields s ≠ [] := by
  cases s with
  | nil => simp [fields]
  | cons c cs =>
    simp only [fields]
    split
    · simp
    · split <;> simp

/-- A piece without delimiter is the only slot of itself. -/
theorem fields_no_bar (a : Str) (h : '|' ∉ a) : fields a = [a] := by
  induction a with
  | nil => rfl
  | cons c cs ih =>
    have hc : c ≠ '|' := fun hc => h (hc ▸ List.mem_cons_self _ _)
    have hcs : '|' ∉ cs := fun hm => h (List.mem_cons_of_mem _ hm)
    simp [fields, hc, ih hcs]

/-- A piece without delimiter followed by a delimiter is the first slot. -/
theorem fields_append_bar (a rest : Str) (h : '|' ∉ a) :
    fields (a ++ '|' :: rest) = a :: fields rest := by
  induction a with
  | nil => simp [fields]
  | cons c cs ih =>
    have hc : c ≠ '|' := fun hc => h (hc ▸ List.mem_cons_self _ _)
    have hcs : '|' ∉ cs := fun hm => h (List.mem_cons_of_mem _ hm)
    simp [fields, hc, ih hcs]

/-! ## Level filtering -/

/-- C1: for every threshold `m_level` and every call level `L` other than
`disabled`, `Logger::log<L>(msg)` hands `msg` to the sink loop exactly when
`m_level <= L` in the enumeration order; otherwise, and in particular whenever the
threshold is `disabled`, the call returns with the logger (and so every sink)
unchanged and nothing written. -/
theorem log_level_filtering (lg : Logger) (L : LogLevel) (msg : Str)
    (hL : L ≠ LogLevel.disabled) :
    (lg.should_log L = true ↔ lg.m_level.val ≤ L.val) ∧
    (lg.m_level.val ≤ L.val →
      Logger.log L lg msg =
        ⟨{ lg with m_sinks := (Logger.logLoop lg.m_sinks msg).self },
          (Logger.logLoop lg.m_sinks msg).out, (Logger.logLoop lg.m_sinks msg).thrown⟩) ∧
    (¬ lg.m_level.val ≤ L.val → Logger.log L lg msg = ⟨lg, [], none⟩) ∧
    (lg.m_level = LogLevel.disabled → Logger.log L lg msg = ⟨lg, [], none⟩) := by
  have hiff : lg.should_log L = true ↔ lg.m_level.val ≤ L.val := by
    simp only [Logger.should_log, decide_eq_true_eq]
    exact Iff.rfl
  refine ⟨hiff, ?_, ?_, ?_⟩
  · intro h
    have hs : lg.should_log L = true := hiff.mpr h
    simp [Logger.log, hs]
  · intro h
    have hs : lg.should_log L = false := by
      cases hb : lg.should_log L with
      | false => rfl
      | true => exact absurd (hiff.mp hb) h
    simp [Logger.log, hs]
  · intro hd
    have hs : lg.should_log L = false := by
      cases hb : lg.should_log L with
      | false => rfl
      | true =>
        have hle := hiff.mp hb
        rw [hd] at hle
        cases L <;> simp [LogLevel.val] at hle hL
    simp [Logger.log, hs]

/-- A logger with threshold `warning` and the plain sink: `log<error>` is handed
to the sink loop. -/
theorem log_level_filtering_witness :
    LogLevel.error ≠ LogLevel.disabled ∧
    LogLevel.warning.val ≤ LogLevel.error.val ∧
    (Logger.log LogLevel.error ⟨LogLevel.warning, [("plain", LogSink.ofStdout ⟨⟩)]⟩ "x".data).out
      = [Write.text "x".data, Write.endl] :=
  ⟨by decide, by decide,
    (congrArg Call.out
      ((log_level_filtering ⟨LogLevel.warning, [("plain", LogSink.ofStdout ⟨⟩)]⟩ LogLevel.error
        "x".data (by decide)).2.1 (by decide))).trans rfl⟩

/-! ## The deduplicating sink -/

/-- C2, as stated for every `n >= 1`, fails at `n = 2 ^ 64`: after `2 ^ 64`
repeats the `std::size_t` counter is back at 0, so when `b` arrives the run of `a`
is closed by a bare line break and no suffix is written. -/
theorem run_compression_counterexample :
    FilteringStdoutLogSink.logAll identityMask FilteringStdoutLogSink.fresh
        (List.replicate (2 ^ 64 + 1) "a".data ++ ["b".data])
      = ⟨⟨("b".data, 0)⟩, [Write.text "a".data, Write.endl, Write.text "b".data], none⟩ ∧
    [Write.text "a".data, Write.endl, Write.text "b".data]
      ≠ [Write.text "a".data, Write.repeated (2 ^ 64), Write.endl, Write.text "b".data] := by
  refine ⟨?_, by decide⟩
  rw [logAll_run_change_wrap identityMask rfl "a".data "b".data "a".data "b".data rfl rfl
    (by decide) (by decide) (2 ^ 64), Nat.mod_self]
  rfl

/-- C2, amended: run compression.  For lines `A`, `B` with different keys, that
of `A` non-empty, and `1 <= n < 2 ^ 64` (the range of the `std::size_t` counter),
a fresh sink given `A` `n + 1` times and then `B` writes `A`, then
`" ... repeated n times"` and a line break, then `B` with no terminator, and
nothing else; no call throws, and afterwards `last_seen = (B, 0)`.  The mask
sends the empty line to the empty key, as both masks of the source do; that the
key of `B` is non-empty is not needed. -/
theorem run_compression (mask : Str → Except Exn Str) (hempty : mask [] = .ok [])
    (A B keyA keyB : Str) (hA : mask A = .ok keyA) (hB : mask B = .ok keyB)
    (hAB : keyA ≠ keyB) (hAne : keyA ≠ []) (n : Nat) (hn : 1 ≤ n) (hn2 : n < 2 ^ 64) :
    FilteringStdoutLogSink.logAll mask FilteringStdoutLogSink.fresh (List.replicate (n + 1) A ++ [B])
      = ⟨⟨(B, 0)⟩, [Write.text A, Write.repeated n, Write.endl, Write.text B], none⟩ ∧
    render [Write.text A, Write.repeated n, Write.endl, Write.text B]
      = A ++ " ... repeated ".data ++ Nat.toDigits 10 n ++ " times".data ++ ['\n'] ++ B := by
  constructor
  · exact logAll_run_change mask hempty A B keyA keyB hA hB hAB hAne n hn hn2
  · simp [render, Write.render]

/-- The logger's mask, a line logged three times and then a line with another
message. -/
theorem run_compression_witness :
    loggerMask "10:00|Info||x".data = .ok "|Info||x".data ∧
    loggerMask "10:07|Info||y".data = .ok "|Info||y".data ∧
    FilteringStdoutLogSink.logAll loggerMask FilteringStdoutLogSink.fresh
        (List.replicate (2 + 1) "10:00|Info||x".data ++ ["10:07|Info||y".data])
      = ⟨⟨("10:07|Info||y".data, 0)⟩,
          [Write.text "10:00|Info||x".data, Write.repeated 2, Write.endl,
            Write.text "10:07|Info||y".data], none⟩ :=
  ⟨rfl, rfl,
    (run_compression loggerMask rfl "10:00|Info||x".data "10:07|Info||y".data
      "|Info||x".data "|Info||y".data rfl rfl (by decide) (by decide) 2 (by decide)
      (by decide)).1⟩

/-- C3: in every state the destructor writes `" ... repeated N times"` and a
line break, with `N` the repeat count, exactly when the stored line is non-empty
and the repeat count is not zero; in every other state it writes nothing. -/
theorem destructor_writes (s : FilteringStdoutLogSink) :
    (s.destroy = [Write.repeated s.last_seen.2, Write.endl]
      ↔ s.last_seen.1 ≠ [] ∧ s.last_seen.2 ≠ 0) ∧
    (render s.destroy
        = " ... repeated ".data ++ Nat.toDigits 10 s.last_seen.2 ++ " times".data ++ ['\n']
      ↔ s.last_seen.1 ≠ [] ∧ s.last_seen.2 ≠ 0) ∧
    (¬ (s.last_seen.1 ≠ [] ∧ s.last_seen.2 ≠ 0) → s.destroy = [] ∧ render s.destroy = []) := by
  by_cases h : s.last_seen.1 ≠ [] ∧ s.last_seen.2 ≠ 0
  · have hd : s.destroy = [Write.repeated s.last_seen.2, Write.endl] := by
      simp only [FilteringStdoutLogSink.destroy, if_pos h]
    refine ⟨⟨fun _ => h, fun _ => hd⟩, ⟨fun _ => h, fun _ => ?_⟩, fun hn => absurd h hn⟩
    rw [hd]
    simp [render, Write.render]
  · have hd : s.destroy = [] := by
      simp only [FilteringStdoutLogSink.destroy, if_neg h]
    refine ⟨⟨fun he => ?_, fun hc => absurd hc h⟩, ⟨fun he => ?_, fun hc => absurd hc h⟩,
      fun _ => ⟨hd, by rw [hd]; rfl⟩⟩
    · rw [hd] at he
      cases he
    · rw [hd] at he
      simp [render] at he

/-- A pending run of three repeats is flushed; an open line without repeats and
a sink that only counted empty lines are not. -/
theorem destructor_writes_witness :
    render (FilteringStdoutLogSink.destroy ⟨("a".data, 3)⟩) = " ... repeated 3 times\n".data ∧
    FilteringStdoutLogSink.destroy ⟨("a".data, 0)⟩ = [] ∧
    FilteringStdoutLogSink.destroy ⟨([], 2)⟩ = [] :=
  ⟨((destructor_writes ⟨("a".data, 3)⟩).2.1.mpr (by decide)).trans (by decide),
    ((destructor_writes ⟨("a".data, 0)⟩).2.2 (by decide)).1,
    ((destructor_writes ⟨([], 2)⟩).2.2 (by decide)).1⟩

/-- C4: a fresh sink fed lines with non-empty keys, no two consecutive ones
with the same key, and then destroyed: no call throws, every line is written
once, in order, with a single line break between neighbours (none after the
last), and no `" ... repeated"` suffix is ever written.  The mask sends the
empty line to the empty key, as both masks of the source do. -/
theorem no_suffix_without_repeat (mask : Str → Except Exn Str) (hempty : mask [] = .ok [])
    (lines : List Str) (hkeys : ∀ l ∈ lines, ∃ k, mask l = .ok k ∧ k ≠ [])
    (hchain : List.Chain' (fun a b => mask a ≠ mask b) lines) :
    (FilteringStdoutLogSink.logAll mask FilteringStdoutLogSink.fresh lines).thrown = none ∧
    FilteringStdoutLogSink.session mask lines
      = List.intersperse Write.endl (lines.map Write.text) ∧
    render (FilteringStdoutLogSink.session mask lines) = List.intercalate ['\n'] lines ∧
    (∀ n, Write.repeated n ∉ FilteringStdoutLogSink.session mask lines) := by
  cases lines with
  | nil =>
    refine ⟨rfl, ?_, ?_, ?_⟩
    · simp [FilteringStdoutLogSink.session, FilteringStdoutLogSink.logAll,
        FilteringStdoutLogSink.destroy, FilteringStdoutLogSink.fresh]
    · simp [FilteringStdoutLogSink.session, FilteringStdoutLogSink.logAll,
        FilteringStdoutLogSink.destroy, FilteringStdoutLogSink.fresh, render,
        List.intercalate]
    · simp [FilteringStdoutLogSink.session, FilteringStdoutLogSink.logAll,
        FilteringStdoutLogSink.destroy, FilteringStdoutLogSink.fresh]
  | cons l rest =>
    obtain ⟨k, hk, hkne⟩ := hkeys l (List.mem_cons_self _ _)
    have hl : l ≠ [] := ne_nil_of_key mask hempty l k hk hkne
    have h1 : FilteringStdoutLogSink.fresh.log mask l = ⟨⟨(l, 0)⟩, [Write.text l], none⟩ := by
      have := log_changed mask FilteringStdoutLogSink.fresh l k [] hk hempty hkne
      simpa [FilteringStdoutLogSink.fresh] using this
    obtain ⟨ht, ho, hs⟩ := logAll_distinct mask hempty rest ⟨(l, 0)⟩ rfl hl ⟨k, hk⟩ hchain
      (fun x hx => hkeys x (List.mem_cons_of_mem _ hx))
    have hsess : FilteringStdoutLogSink.session mask (l :: rest)
        = Write.text l :: rest.flatMap (fun x => [Write.endl, Write.text x]) := by
      simp only [FilteringStdoutLogSink.session, FilteringStdoutLogSink.logAll, h1, ho,
        FilteringStdoutLogSink.destroy, hs]
      simp
    refine ⟨?_, ?_, ?_, ?_⟩
    · simp only [FilteringStdoutLogSink.logAll, h1]
      exact ht
    · rw [hsess, List.map_cons, intersperse_cons_flatMap, List.flatMap_map]
    · rw [hsess]
      simp only [render, Write.render, render_flatMap_lines, List.intercalate,
        intersperse_cons_flatMap, List.flatten_cons]
    · intro n hn
      rw [hsess] at hn
      simp [List.mem_flatMap] at hn

/-- The logger's mask and the lines `A`, `B`, `A`: the line `A` comes back
after another line and is written again, without a suffix. -/
theorem no_suffix_without_repeat_witness :
    render (FilteringStdoutLogSink.session loggerMask
        ["1|a".data, "2|b".data, "3|a".data]) = "1|a\n2|b\n3|a".data :=
  ((no_suffix_without_repeat loggerMask rfl ["1|a".data, "2|b".data, "3|a".data]
    (by
      intro l hl
      simp only [List.mem_cons, List.mem_singleton, List.not_mem_nil, or_false] at hl
      rcases hl with h | h | h
      · exact ⟨"|a".data, h ▸ rfl, by decide⟩
      · exact ⟨"|b".data, h ▸ rfl, by decide⟩
      · exact ⟨"|a".data, h ▸ rfl, by decide⟩)
    (by
      refine List.Chain'.cons' (List.Chain'.cons' (List.chain'_singleton _) ?_) ?_
      · intro y hy
        cases hy
        intro h
        cases h
      · intro y hy
        cases hy
        intro h
        cases h)).2.2.1).trans (by decide)

/-- C5, as stated for every finite sequence, fails for `2 ^ 64 + 1` equal
lines: the `std::size_t` counter wraps to 0 at the last of them, the destructor
finds no pending repeat and writes nothing, so one line written and no suffix
stand for `2 ^ 64 + 1` calls. -/
theorem occurrence_count_counterexample :
    FilteringStdoutLogSink.session identityMask (List.replicate (2 ^ 64 + 1) "a".data)
      = [Write.text "a".data] ∧
    verbatimLines (FilteringStdoutLogSink.session identityMask
        (List.replicate (2 ^ 64 + 1) "a".data))
      + repeatSum (FilteringStdoutLogSink.session identityMask
        (List.replicate (2 ^ 64 + 1) "a".data)) = 1 ∧
    (List.replicate (2 ^ 64 + 1) "a".data).length = 2 ^ 64 + 1 := by
  have hs : FilteringStdoutLogSink.session identityMask
      (List.replicate (2 ^ 64 + 1) "a".data) = [Write.text "a".data] := by
    show (FilteringStdoutLogSink.logAll identityMask FilteringStdoutLogSink.fresh
        (List.replicate (2 ^ 64 + 1) "a".data)).out ++
      (FilteringStdoutLogSink.logAll identityMask FilteringStdoutLogSink.fresh
        (List.replicate (2 ^ 64 + 1) "a".data)).self.destroy = _
    rw [logAll_fresh_run identityMask rfl "a".data "a".data rfl (by decide) (2 ^ 64),
      Nat.mod_self]
    rfl
  refine ⟨hs, ?_, List.length_replicate _ _⟩
  rw [hs]
  rfl

/-- C5, amended: a fresh sink fed a finite sequence of lines with non-empty keys
in which no run wraps the `std::size_t` counter (no line is followed by `2 ^ 64`
or more consecutive lines with its key), and then destroyed: no call throws, and
the number of lines written verbatim plus the sum of the counts in all
`" ... repeated N times"` suffixes equals the number of `log` calls.  Every
sequence of at most `2 ^ 64` lines is of this kind.  The mask sends the empty
line to the empty key, as both masks of the source do. -/
theorem occurrence_count_preserved (mask : Str → Except Exn Str) (hempty : mask [] = .ok [])
    (lines : List Str) (hkeys : ∀ l ∈ lines, ∃ k, mask l = .ok k ∧ k ≠ []) :
    (FilteringStdoutLogSink.noWrap mask 0 [] lines →
      (FilteringStdoutLogSink.logAll mask FilteringStdoutLogSink.fresh lines).thrown = none ∧
      verbatimLines (FilteringStdoutLogSink.session mask lines)
        + repeatSum (FilteringStdoutLogSink.session mask lines) = lines.length) ∧
    (lines.length ≤ 2 ^ 64 → FilteringStdoutLogSink.noWrap mask 0 [] lines) := by
  cases lines with
  | nil =>
    refine ⟨fun _ => ⟨rfl, ?_⟩, fun _ => trivial⟩
    simp [FilteringStdoutLogSink.session, FilteringStdoutLogSink.logAll,
      FilteringStdoutLogSink.destroy, FilteringStdoutLogSink.fresh, verbatimLines, repeatSum]
  | cons l rest =>
    obtain ⟨k, hk, hkne⟩ := hkeys l (List.mem_cons_self _ _)
    have hl : l ≠ [] := ne_nil_of_key mask hempty l k hk hkne
    have hdiff : mask l ≠ mask [] := by
      rw [hk, hempty]
      intro h
      exact hkne (Except.ok.inj h)
    have h1 : FilteringStdoutLogSink.fresh.log mask l = ⟨⟨(l, 0)⟩, [Write.text l], none⟩ := by
      have := log_changed mask FilteringStdoutLogSink.fresh l k [] hk hempty hkne
      simpa [FilteringStdoutLogSink.fresh] using this
    refine ⟨?_, ?_⟩
    · intro hruns
      simp only [FilteringStdoutLogSink.noWrap] at hruns
      obtain ⟨ht, hsum⟩ := logAll_accounts mask hempty rest ⟨(l, 0)⟩ hl ⟨k, hk⟩
        (fun x hx => hkeys x (List.mem_cons_of_mem _ hx)) (hruns.2 hdiff)
      refine ⟨?_, ?_⟩
      · simp only [FilteringStdoutLogSink.logAll, h1]
        exact ht
      · simp only [FilteringStdoutLogSink.session, FilteringStdoutLogSink.logAll, h1,
          List.length_cons, List.append_assoc]
        simp only [List.singleton_append, verbatimLines, repeatSum, List.append_eq,
          List.nil_append]
        simp only [Nat.add_zero] at hsum
        omega
    · intro hlen
      simp only [List.length_cons] at hlen
      simp only [FilteringStdoutLogSink.noWrap]
      exact ⟨fun h => absurd h hdiff,
        fun _ => noWrap_of_length mask rest 0 l (by omega)⟩

/-- Identity mask, six calls: `a a a b a a` gives `a`, a suffix counting 2, `b`,
`a` and, from the destructor, a suffix counting 1. -/
theorem occurrence_count_preserved_witness :
    FilteringStdoutLogSink.session identityMask
        ["a".data, "a".data, "a".data, "b".data, "a".data, "a".data]
      = [Write.text "a".data, Write.repeated 2, Write.endl, Write.text "b".data, Write.endl,
          Write.text "a".data, Write.repeated 1, Write.endl] ∧
    verbatimLines (FilteringStdoutLogSink.session identityMask
        ["a".data, "a".data, "a".data, "b".data, "a".data, "a".data])
      + repeatSum (FilteringStdoutLogSink.session identityMask
        ["a".data, "a".data, "a".data, "b".data, "a".data, "a".data]) = 6 :=
  ⟨by decide,
    ((occurrence_count_preserved identityMask rfl
      ["a".data, "a".data, "a".data, "b".data, "a".data, "a".data]
      (fun l hl => ⟨l, rfl, by
        simp only [List.mem_cons, List.mem_singleton, List.not_mem_nil, or_false] at hl
        rcases hl with h | h | h | h | h | h <;> (rw [h]; decide)⟩)).1
      ((occurrence_count_preserved identityMask rfl
        ["a".data, "a".data, "a".data, "b".data, "a".data, "a".data]
        (fun l hl => ⟨l, rfl, by
          simp only [List.mem_cons, List.mem_singleton, List.not_mem_nil, or_false] at hl
          rcases hl with h | h | h | h | h | h <;> (rw [h]; decide)⟩)).2 (by decide))).2⟩

/-- C6: key extraction of the logger's `"default"` sink on lines `ts|rest` whose
timestamp `ts` has no delimiter.  Two lines that differ only in the timestamp have
the same key, so the second is collapsed into the run of the first: nothing is
written and the repeat count goes up by one (as a `std::size_t`, so modulo
`2 ^ 64`).  Two lines with the same timestamp
and different text after it have different keys, so the second is written as a
new line (after the terminator or suffix closing the first). -/
theorem default_key_extraction (ts1 ts2 rest1 rest2 : Str) (h1 : '|' ∉ ts1) (h2 : '|' ∉ ts2)
    (n : Nat) :
    loggerMask (ts1 ++ '|' :: rest1) = .ok ('|' :: rest1) ∧
    loggerMask (ts1 ++ '|' :: rest1) = loggerMask (ts2 ++ '|' :: rest1) ∧
    FilteringStdoutLogSink.log loggerMask ⟨(ts1 ++ '|' :: rest1, n)⟩ (ts2 ++ '|' :: rest1)
      = ⟨⟨(ts1 ++ '|' :: rest1, (n + 1) % 2 ^ 64)⟩, [], none⟩ ∧
    (rest1 ≠ rest2 →
      loggerMask (ts1 ++ '|' :: rest1) ≠ loggerMask (ts1 ++ '|' :: rest2) ∧
      FilteringStdoutLogSink.log loggerMask ⟨(ts1 ++ '|' :: rest1, n)⟩ (ts1 ++ '|' :: rest2)
        = ⟨⟨(ts1 ++ '|' :: rest2, 0)⟩,
            (if n ≠ 0 then [Write.repeated n, Write.endl] else [Write.endl])
              ++ [Write.text (ts1 ++ '|' :: rest2)],
            none⟩) := by
  have k1 := loggerMask_bar ts1 rest1 h1
  have k2 := loggerMask_bar ts2 rest1 h2
  have k3 := loggerMask_bar ts1 rest2 h1
  refine ⟨k1, k1.trans k2.symm, ?_, ?_⟩
  · exact log_same loggerMask ⟨(ts1 ++ '|' :: rest1, n)⟩ _ _ k2 k1
  · intro hne
    have hk : ('|' :: rest2 : Str) ≠ '|' :: rest1 := by
      intro h
      exact hne (List.cons.inj h).2.symm
    refine ⟨?_, ?_⟩
    · rw [k1, k3]
      intro h
      exact hk (Except.ok.inj h).symm
    · have := log_changed loggerMask ⟨(ts1 ++ '|' :: rest1, n)⟩ _ _ _ k3 k1 hk
      simpa using this

/-- The same message at 10:00 and 10:07 collapses; another message at 10:00 is
written as a new line. -/
theorem default_key_extraction_witness :
    FilteringStdoutLogSink.log loggerMask ⟨("10:00|Info||x".data, 0)⟩ "10:07|Info||x".data
      = ⟨⟨("10:00|Info||x".data, 1)⟩, [], none⟩ ∧
    FilteringStdoutLogSink.log loggerMask ⟨("10:00|Info||x".data, 0)⟩ "10:00|Info||y".data
      = ⟨⟨("10:00|Info||y".data, 0)⟩, [Write.endl, Write.text "10:00|Info||y".data], none⟩ :=
  ⟨(default_key_extraction "10:00".data "10:07".data "Info||x".data "Info||y".data
      (by decide) (by decide) 0).2.2.1,
    ((default_key_extraction "10:00".data "10:07".data "Info||x".data "Info||y".data
      (by decide) (by decide) 0).2.2.2 (by decide)).2⟩

/-! ## Dispatch to the sinks -/

/-- C8, as stated, fails: in the three-sink logger the second sink throws
`std::out_of_range` on the line `boom` (which has no delimiter); the exception
leaves `Logger::log`, and only the first sink has written. -/
theorem sink_isolation_counterexample :
    ((LogSink.ofFiltering loggerMask FilteringStdoutLogSink.fresh).log "boom".data).thrown
      = some Exn.out_of_range ∧
    (Logger.log LogLevel.info threeSinkLogger "boom".data).thrown ≠ none ∧
    (Logger.log LogLevel.info threeSinkLogger "boom".data).out
      = [Write.text "boom".data, Write.endl] := by
  refine ⟨rfl, ?_, rfl⟩
  intro h
  cases h

/-- C8, amended: `Logger::log` has no handler around the sink calls.  When a sink
throws on an accepted call and the sinks before it do not, the sinks before it
and the throwing sink have been called once each, in order; the sinks after it
are not called and keep their state; the exception leaves `Logger::log`. -/
theorem sink_failure_propagates (lg : Logger) (L : LogLevel) (t : Str)
    (pre post : List (String × LogSink)) (name : String) (S : LogSink) (e : Exn)
    (hacc : lg.should_log L = true) (hsinks : lg.m_sinks = pre ++ (name, S) :: post)
    (hpre : ∀ s ∈ pre, (s.2.log t).thrown = none) (hS : (S.log t).thrown = some e) :
    Logger.log L lg t
      = ⟨{ lg with m_sinks :=
              pre.map (fun s => (s.1, (s.2.log t).self)) ++ (name, (S.log t).self) :: post },
          pre.flatMap (fun s => (s.2.log t).out) ++ (S.log t).out, some e⟩ := by
  simp [Logger.log, hacc, hsinks, logLoop_throw pre post name S t e hpre hS]

/-- The three-sink logger on the line `boom`: the exception of the second sink is
the outcome of the call. -/
theorem sink_failure_propagates_witness :
    (Logger.log LogLevel.info threeSinkLogger "boom".data).thrown = some Exn.out_of_range :=
  congrArg Call.thrown
    (sink_failure_propagates threeSinkLogger LogLevel.info "boom".data
      [("S1", LogSink.ofStdout ⟨⟩)] [("S3", LogSink.ofStdout ⟨⟩)] "S2"
      (LogSink.ofFiltering loggerMask FilteringStdoutLogSink.fresh) Exn.out_of_range rfl rfl
      (by
        intro s hs
        simp only [List.mem_singleton] at hs
        rw [hs]
        rfl)
      rfl)

/-! ## First call and teardown of the deduplicating sink -/

/-- C9, as stated, fails for the empty line: its key equals the key of the
initially empty stored line, so the first call takes the repeat branch and leaves
the repeat count at 1 (with either mask of the source); the next line with another
key then gets a suffix counting that first call. -/
theorem first_call_counterexample :
    (FilteringStdoutLogSink.fresh.log identityMask []).self.last_seen = ([], 1) ∧
    (FilteringStdoutLogSink.fresh.log loggerMask []).self.last_seen = ([], 1) ∧
    render (FilteringStdoutLogSink.logAll identityMask FilteringStdoutLogSink.fresh
        [[], "b".data]).out = " ... repeated 1 times\nb".data := by
  decide

/-- C9, amended: on a fresh sink, the first `log` call with a line whose key
differs from the key of the empty line takes the key-changed branch: it writes
exactly that line, nothing before it, and leaves the repeat count at 0.  With the
default mask this is every non-empty line, with the logger's mask every line
`ts|rest` whose `ts` has no delimiter. -/
theorem first_call_opens_line (mask : Str → Except Exn Str) (msg key key0 : Str)
    (hk : mask msg = .ok key) (h0 : mask [] = .ok key0) (hne : key ≠ key0) :
    FilteringStdoutLogSink.fresh.log mask msg = ⟨⟨(msg, 0)⟩, [Write.text msg], none⟩ ∧
    (∀ line : Str, line ≠ [] →
      FilteringStdoutLogSink.fresh.log identityMask line
        = ⟨⟨(line, 0)⟩, [Write.text line], none⟩) ∧
    (∀ ts rest : Str, '|' ∉ ts →
      FilteringStdoutLogSink.fresh.log loggerMask (ts ++ '|' :: rest)
        = ⟨⟨(ts ++ '|' :: rest, 0)⟩, [Write.text (ts ++ '|' :: rest)], none⟩) := by
  refine ⟨?_, ?_, ?_⟩
  · have := log_changed mask FilteringStdoutLogSink.fresh msg key key0 hk h0 hne
    simpa [FilteringStdoutLogSink.fresh] using this
  · intro line hl
    have := log_changed identityMask FilteringStdoutLogSink.fresh line line [] rfl rfl hl
    simpa [FilteringStdoutLogSink.fresh] using this
  · intro ts rest hts
    have := log_changed loggerMask FilteringStdoutLogSink.fresh (ts ++ '|' :: rest)
      ('|' :: rest) [] (loggerMask_bar ts rest hts) rfl (by simp)
    simpa [FilteringStdoutLogSink.fresh] using this

/-- The logger's mask and a formatted first line. -/
theorem first_call_opens_line_witness :
    FilteringStdoutLogSink.fresh.log loggerMask "10:00|Info||x".data
      = ⟨⟨("10:00|Info||x".data, 0)⟩, [Write.text "10:00|Info||x".data], none⟩ :=
  (first_call_opens_line loggerMask "10:00|Info||x".data "|Info||x".data [] rfl rfl
    (by decide)).1

/-- C10, as stated, fails: after `a` five times and `b` once the destructor
writes nothing, so the total output ends with `b` and has no final line break. -/
theorem teardown_terminator_counterexample :
    render (FilteringStdoutLogSink.session identityMask
        (List.replicate 5 "a".data ++ ["b".data])) = "a ... repeated 4 times\nb".data ∧
    render (FilteringStdoutLogSink.session identityMask
        (List.replicate 5 "a".data ++ ["b".data])) ≠ "a ... repeated 4 times\nb\n".data := by
  decide

/-- C10, amended: for lines `A`, `B` with different keys, the key of `A`
non-empty, logging `A` five times, then `B` once, then destroying the sink gives
as total output exactly `A`, `" ... repeated 4 times"`, a line break, `B`: the
last line, having no repeats, gets no suffix and the destructor writes nothing. -/
theorem teardown_leaves_last_line_open (mask : Str → Except Exn Str)
    (hempty : mask [] = .ok []) (A B keyA keyB : Str) (hA : mask A = .ok keyA)
    (hB : mask B = .ok keyB) (hAB : keyA ≠ keyB) (hAne : keyA ≠ []) :
    FilteringStdoutLogSink.session mask (List.replicate 5 A ++ [B])
      = [Write.text A, Write.repeated 4, Write.endl, Write.text B] ∧
    render (FilteringStdoutLogSink.session mask (List.replicate 5 A ++ [B]))
      = A ++ " ... repeated 4 times\n".data ++ B ∧
    (FilteringStdoutLogSink.logAll mask FilteringStdoutLogSink.fresh
      (List.replicate 5 A ++ [B])).self.destroy = [] := by
  have hrun := logAll_run_change mask hempty A B keyA keyB hA hB hAB hAne 4 (by decide)
    (by decide)
  have hsess : FilteringStdoutLogSink.session mask (List.replicate 5 A ++ [B])
      = [Write.text A, Write.repeated 4, Write.endl, Write.text B] := by
    simp only [FilteringStdoutLogSink.session, hrun, FilteringStdoutLogSink.destroy]
    simp
  refine ⟨hsess, ?_, ?_⟩
  · rw [hsess]
    simp only [render, Write.render, List.append_nil, List.append_assoc]
    rfl
  · rw [hrun]
    simp [FilteringStdoutLogSink.destroy]

/-- The logger's mask: one message five times, then another. -/
theorem teardown_leaves_last_line_open_witness :
    render (FilteringStdoutLogSink.session loggerMask
        (List.replicate 5 "1|a".data ++ ["2|b".data])) = "1|a ... repeated 4 times\n2|b".data :=
  ((teardown_leaves_last_line_open loggerMask rfl "1|a".data "2|b".data "|a".data "|b".data
    rfl rfl (by decide) (by decide)).2.1).trans (by decide)

/-! ## Default configuration, plain sink, key function, repeat step -/

/-- C12: a default-constructed `Logger` has threshold `debug`, so `should_log`
holds for each of the five call levels; its sink sequence has exactly one entry,
named `"default"`, a `FilteringStdoutLogSink` with the logger's mask in its
initial state (empty stored line, repeat count 0); this is the logger the first
call of `get_logger` constructs. -/
theorem default_logger_configuration :
    Logger.defaultConstructed.m_level = LogLevel.debug ∧
    Logger.defaultConstructed.should_log LogLevel.debug = true ∧
    Logger.defaultConstructed.should_log LogLevel.info = true ∧
    Logger.defaultConstructed.should_log LogLevel.warning = true ∧
    Logger.defaultConstructed.should_log LogLevel.error = true ∧
    Logger.defaultConstructed.should_log LogLevel.critical = true ∧
    Logger.defaultConstructed.m_sinks.length = 1 ∧
    Logger.defaultConstructed.m_sinks.map Prod.fst = ["default"] ∧
    Logger.defaultConstructed.m_sinks
      = [("default", LogSink.ofFiltering loggerMask ⟨([], 0)⟩)] ∧
    (get_logger ⟨none⟩).2.logger = some Logger.defaultConstructed :=
  ⟨rfl, rfl, rfl, rfl, rfl, rfl, rfl, rfl, rfl, rfl⟩

/-- C16: `StdoutLogSink::log(s)` writes exactly `s` and one line break, at once:
the sink has no state to hold anything back and is the same afterwards, and it
does not throw.  Logging `s1 .. sk` in order writes each line followed by a
line break, in that order. -/
theorem plain_sink_writes (self : StdoutLogSink) (s : Str) (lines : List Str) :
    self.log s = ⟨self, [Write.text s, Write.endl], none⟩ ∧
    render (self.log s).out = s ++ ['\n'] ∧
    StdoutLogSink.logAll self lines
      = ⟨self, lines.flatMap (fun l => [Write.text l, Write.endl]), none⟩ ∧
    render (StdoutLogSink.logAll self lines).out = (lines.map (fun l => l ++ ['\n'])).flatten := by
  refine ⟨rfl, ?_, stdout_logAll_out lines self, ?_⟩
  · simp [StdoutLogSink.log, render, Write.render]
  · rw [stdout_logAll_out lines self]
    exact render_flatMap_terminated lines

/-- C17, as stated, fails: the key of `10:00|x` is `|x`, with the delimiter, not
the part `x` strictly after it. -/
theorem default_key_counterexample :
    loggerMask "10:00|x".data = .ok "|x".data ∧
    loggerMask "10:00|x".data ≠ .ok "x".data := by
  refine ⟨rfl, ?_⟩
  intro h
  have h2 := Except.ok.inj h
  exact absurd h2 (by decide)

/-- C17, amended: for every line containing the delimiter, the key computed by
the logger's default sink is the part of the line from the first delimiter on,
that delimiter included (only what stands before it is stripped); for the empty
line the key is the empty string. -/
theorem default_key_keeps_delimiter (msg : Str) (h : '|' ∈ msg) :
    loggerMask msg = .ok (msg.dropWhile (fun c => c != '|')) ∧
    (msg.dropWhile (fun c => c != '|')).head? = some '|' ∧
    (∃ ts rest, msg = ts ++ '|' :: rest ∧ '|' ∉ ts ∧ loggerMask msg = .ok ('|' :: rest)) ∧
    loggerMask [] = .ok [] := by
  obtain ⟨ts, rest, hsplit, hts⟩ := exists_split_bar msg h
  have hk := loggerMask_bar ts rest hts
  have hd := dropWhile_bar ts rest hts
  refine ⟨?_, ?_, ⟨ts, rest, hsplit, hts, by rw [hsplit]; exact hk⟩, rfl⟩
  · rw [hsplit, hd]
    exact hk
  · rw [hsplit, hd]
    rfl

/-- A formatted line: the key starts at the delimiter after the timestamp. -/
theorem default_key_keeps_delimiter_witness :
    '|' ∈ "10:00|Info||x".data ∧
    loggerMask "10:00|Info||x".data = .ok "|Info||x".data :=
  ⟨by decide, (default_key_keeps_delimiter "10:00|Info||x".data (by decide)).1.trans rfl⟩

/-- C19, as stated, fails when the repeat count stands at `SIZE_MAX`: the
increment of the `std::size_t` counter gives 0, not `SIZE_MAX + 1`. -/
theorem repeat_step_counterexample :
    (FilteringStdoutLogSink.log identityMask ⟨("a".data, 2 ^ 64 - 1)⟩ "a".data).self.last_seen
      = ("a".data, 0) ∧
    (0 : Nat) ≠ (2 ^ 64 - 1) + 1 := by
  decide

/-- C19, amended: a `log` call whose line has the key of the stored line writes
nothing, does not throw, leaves the stored line as it is and raises the repeat
count by exactly 1 modulo `2 ^ 64`: by exactly 1 while the count is below
`SIZE_MAX = 2 ^ 64 - 1`, and from `SIZE_MAX` to 0.  So through any number of such
calls nothing is written and the stored line, which is the one written when the
run began, stays the first line of the run; the count is the number of such
calls as long as it stays below `2 ^ 64`. -/
theorem repeat_step (mask : Str → Except Exn Str) (s : FilteringStdoutLogSink)
    (line key : Str) (hk : mask line = .ok key) (hl : mask s.last_seen.1 = .ok key) :
    (s.log mask line).out = [] ∧
    (s.log mask line).thrown = none ∧
    (s.log mask line).self.last_seen.2 = (s.last_seen.2 + 1) % 2 ^ 64 ∧
    (s.last_seen.2 < 2 ^ 64 - 1 → (s.log mask line).self.last_seen.2 = s.last_seen.2 + 1) ∧
    (s.last_seen.2 = 2 ^ 64 - 1 → (s.log mask line).self.last_seen.2 = 0) ∧
    (s.log mask line).self.last_seen.1 = s.last_seen.1 ∧
    (∀ later : List Str, (∀ l ∈ later, mask l = .ok key) →
      (FilteringStdoutLogSink.logAll mask s later).out = [] ∧
      (FilteringStdoutLogSink.logAll mask s later).thrown = none ∧
      (FilteringStdoutLogSink.logAll mask s later).self.last_seen.1 = s.last_seen.1) ∧
    (∀ later : List Str, (∀ l ∈ later, mask l = .ok key) →
      s.last_seen.2 + later.length < 2 ^ 64 →
      FilteringStdoutLogSink.logAll mask s later
        = ⟨⟨(s.last_seen.1, s.last_seen.2 + later.length)⟩, [], none⟩) := by
  have h := log_same mask s line key hk hl
  refine ⟨by rw [h], by rw [h], by rw [h], ?_, ?_, by rw [h], ?_, ?_⟩
  · intro hlt
    rw [h]
    exact Nat.mod_eq_of_lt (by omega)
  · intro heq
    rw [h]
    simp only [heq]
    decide
  · intro later hlater
    exact logAll_same_key_line mask key later s hl hlater
  · intro later hlater hb
    exact logAll_same_key mask key later s hl hlater hb

/-- The run of a message first logged at 10:00: the line logged at 10:07 is
counted and the stored line keeps the timestamp 10:00. -/
theorem repeat_step_witness :
    (FilteringStdoutLogSink.log loggerMask ⟨("10:00|Info||x".data, 2)⟩
        "10:07|Info||x".data).self.last_seen = ("10:00|Info||x".data, 3) ∧
    (FilteringStdoutLogSink.log loggerMask ⟨("10:00|Info||x".data, 2)⟩
        "10:07|Info||x".data).out = [] :=
  ⟨Prod.ext
      (repeat_step loggerMask ⟨("10:00|Info||x".data, 2)⟩ "10:07|Info||x".data
        "|Info||x".data rfl rfl).2.2.2.2.2.1
      ((repeat_step loggerMask ⟨("10:00|Info||x".data, 2)⟩ "10:07|Info||x".data
        "|Info||x".data rfl rfl).2.2.2.1 (by decide)),
    (repeat_step loggerMask ⟨("10:00|Info||x".data, 2)⟩ "10:07|Info||x".data
      "|Info||x".data rfl rfl).1⟩

/-! ## Formatter and entry points -/

/-- C13: `format_log<false>(datetime, level, msg)` is `datetime|level||msg`,
which is `format_log<true>` with an empty `src_loc`.  When no field contains the
delimiter, both modes give exactly three delimiters and the four field slots
timestamp, severity, location, message in this order; without location only the
third slot differs: it is empty. -/
theorem formatter_field_slots (datetime level src_loc msg : Str) :
    DefaultFormatter.format_log false datetime level src_loc msg
      = datetime ++ "|".data ++ level ++ "||".data ++ msg ∧
    DefaultFormatter.format_log false datetime level src_loc msg
      = DefaultFormatter.format_log true datetime level [] msg ∧
    ('|' ∉ datetime → '|' ∉ level → '|' ∉ src_loc → '|' ∉ msg →
      fields (DefaultFormatter.format_log true datetime level src_loc msg)
        = [datetime, level, src_loc, msg] ∧
      fields (DefaultFormatter.format_log false datetime level src_loc msg)
        = [datetime, level, [], msg] ∧
      (DefaultFormatter.format_log true datetime level src_loc msg).count '|' = 3 ∧
      (DefaultFormatter.format_log false datetime level src_loc msg).count '|' = 3) := by
  refine ⟨rfl, ?_, ?_⟩
  · simp [DefaultFormatter.format_log]
  · intro hd hl hs hm
    have e1 : DefaultFormatter.format_log true datetime level src_loc msg
        = datetime ++ '|' :: (level ++ '|' :: (src_loc ++ '|' :: msg)) := by
      simp [DefaultFormatter.format_log]
    have e2 : DefaultFormatter.format_log false datetime level src_loc msg
        = datetime ++ '|' :: (level ++ '|' :: ([] ++ '|' :: msg)) := by
      simp [DefaultFormatter.format_log]
    have c0 : ∀ a : Str, '|' ∉ a → a.count '|' = 0 :=
      fun a ha => List.count_eq_zero_of_not_mem ha
    refine ⟨?_, ?_, ?_, ?_⟩
    · rw [e1, fields_append_bar _ _ hd, fields_append_bar _ _ hl, fields_append_bar _ _ hs,
        fields_no_bar _ hm]
    · rw [e2, fields_append_bar _ _ hd, fields_append_bar _ _ hl,
        fields_append_bar _ _ (by simp), fields_no_bar _ hm]
    · rw [e1]
      simp [List.count_append, List.count_cons, c0 _ hd, c0 _ hl, c0 _ hs, c0 _ hm]
    · rw [e2]
      simp [List.count_append, List.count_cons, c0 _ hd, c0 _ hl, c0 _ hm]

/-- A record with and without its location. -/
theorem formatter_field_slots_witness :
    fields (DefaultFormatter.format_log true "10:00".data "Info".data "a.cpp:main:7".data
        "x".data) = ["10:00".data, "Info".data, "a.cpp:main:7".data, "x".data] ∧
    fields (DefaultFormatter.format_log false "10:00".data "Info".data "a.cpp:main:7".data
        "x".data) = ["10:00".data, "Info".data, [], "x".data] :=
  ⟨((formatter_field_slots "10:00".data "Info".data "a.cpp:main:7".data "x".data).2.2
      (by decide) (by decide) (by decide) (by decide)).1,
    ((formatter_field_slots "10:00".data "Info".data "a.cpp:main:7".data "x".data).2.2
      (by decide) (by decide) (by decide) (by decide)).2.1⟩

/-- C18: each of the ten entry points renders the level field as the name of
its own level and filters against that same level; the overloads taking a
location render with `format_log<EnableSrcLocation>` and the location text
`file:function:line`, the others with `format_log<false>`; each `LogCtx` method
is the location-taking entry point of the same name at the stored location. -/
theorem entry_points_consistent (E : Bool) (lg : Logger) (datetime msg : Str)
    (loc : source_location) :
    (lg.debug_loc E datetime loc msg = Logger.log LogLevel.debug lg
        (DefaultFormatter.format_log E datetime "Debug".data
          (loc.file_name ++ [':'] ++ loc.function_name ++ [':'] ++ Nat.toDigits 10 loc.line)
          msg) ∧
      lg.info_loc E datetime loc msg = Logger.log LogLevel.info lg
        (DefaultFormatter.format_log E datetime "Info".data
          (loc.file_name ++ [':'] ++ loc.function_name ++ [':'] ++ Nat.toDigits 10 loc.line)
          msg) ∧
      lg.warning_loc E datetime loc msg = Logger.log LogLevel.warning lg
        (DefaultFormatter.format_log E datetime "Warning".data
          (loc.file_name ++ [':'] ++ loc.function_name ++ [':'] ++ Nat.toDigits 10 loc.line)
          msg) ∧
      lg.error_loc E datetime loc msg = Logger.log LogLevel.error lg
        (DefaultFormatter.format_log E datetime "Error".data
          (loc.file_name ++ [':'] ++ loc.function_name ++ [':'] ++ Nat.toDigits 10 loc.line)
          msg) ∧
      lg.critical_loc E datetime loc msg = Logger.log LogLevel.critical lg
        (DefaultFormatter.format_log E datetime "Critical".data
          (loc.file_name ++ [':'] ++ loc.function_name ++ [':'] ++ Nat.toDigits 10 loc.line)
          msg)) ∧
    (lg.debug datetime msg = Logger.log LogLevel.debug lg
        (datetime ++ "|Debug||".data ++ msg) ∧
      lg.info datetime msg = Logger.log LogLevel.info lg
        (datetime ++ "|Info||".data ++ msg) ∧
      lg.warning datetime msg = Logger.log LogLevel.warning lg
        (datetime ++ "|Warning||".data ++ msg) ∧
      lg.error datetime msg = Logger.log LogLevel.error lg
        (datetime ++ "|Error||".data ++ msg) ∧
      lg.critical datetime msg = Logger.log LogLevel.critical lg
        (datetime ++ "|Critical||".data ++ msg)) ∧
    ((Logger.with_ctx loc).debug E lg datetime msg = lg.debug_loc E datetime loc msg ∧
      (Logger.with_ctx loc).info E lg datetime msg = lg.info_loc E datetime loc msg ∧
      (Logger.with_ctx loc).warning E lg datetime msg = lg.warning_loc E datetime loc msg ∧
      (Logger.with_ctx loc).error E lg datetime msg = lg.error_loc E datetime loc msg ∧
      (Logger.with_ctx loc).critical E lg datetime msg
        = lg.critical_loc E datetime loc msg) := by
  refine ⟨⟨rfl, rfl, rfl, rfl, rfl⟩, ⟨?_, ?_, ?_, ?_, ?_⟩, ⟨rfl, rfl, rfl, rfl, rfl⟩⟩ <;>
    simp [Logger.debug, Logger.info, Logger.warning, Logger.error, Logger.critical,
      DefaultFormatter.format_log, log_level_string]

end logger2

/-! # Properties of `logger/logger.cpp` and of the two accessors -/

/-- C11: sequential calls of the accessor.  In `logger.cpp`, whatever the
arguments `p` and `q`, a call after another returns the same reference and leaves
the static as the earlier call left it: the logger is constructed once, by the
first call, from that call's arguments, and later arguments are ignored.  A state
given to the logger through the returned reference is what a later call returns.
The same holds for `get_logger` of `logger2.cpp`, whose first call constructs the
default logger. -/
theorem singleton_identity (st : logger.Statics) (p q : Option (logger.LogLevel ×
    logger.Stream × logger.Stream)) (lg : logger.Logger) (st2 : logger2.Statics)
    (lg2 : logger2.Logger) :
    (logger.global.get_logger q (logger.global.get_logger p st).2
      = logger.global.get_logger p st) ∧
    ((logger.global.get_logger p ⟨none⟩).2.logger
      = some (match p with
        | some (level, out_stream, err_stream) =>
          logger.Logger.construct level out_stream err_stream
        | none => logger.Logger.constructDefault)) ∧
    (logger.global.get_logger q
        ((logger.global.get_logger p st).2.write (logger.global.get_logger p st).1 lg)
      = ((logger.global.get_logger p st).1, ⟨some lg⟩)) ∧
    (logger2.get_logger (logger2.get_logger st2).2 = logger2.get_logger st2) ∧
    ((logger2.get_logger ⟨none⟩).2.logger = some logger2.Logger.defaultConstructed) ∧
    (logger2.get_logger
        ((logger2.get_logger st2).2.write (logger2.get_logger st2).1 lg2)
      = ((logger2.get_logger st2).1, ⟨some lg2⟩)) := by
  refine ⟨?_, ?_, ?_, ?_, rfl, ?_⟩
  · cases st with
    | mk l =>
      cases l with
      | some x => rfl
      | none => cases p with
        | none => rfl
        | some t => rfl
  · cases p with
    | none => rfl
    | some t => rfl
  · cases st with
    | mk l =>
      cases l with
      | some x => rfl
      | none => cases p with
        | none => rfl
        | some t => rfl
  · cases st2 with
    | mk l =>
      cases l with
      | some x => rfl
      | none => rfl
  · cases st2 with
    | mk l =>
      cases l with
      | some x => rfl
      | none => rfl

namespace logger

/-- What `Logger::log` of `logger.cpp` does: an entry point for level `L` writes
its line exactly when `L <= m_level`. -/
theorem log_writes_iff (lg : Logger) (L : LogLevel) (os : Stream) (msg : List Char) :
    (Logger.log L lg os msg ≠ [] ↔ L.val ≤ lg.m_level.val) := by
  unfold Logger.log
  by_cases h : L ≤ lg.m_level
  · simp only [if_pos h]
    exact ⟨fun _ => h, fun _ => by simp⟩
  · simp only [if_neg h]
    exact ⟨fun hc => absurd rfl hc, fun hc => absurd hc h⟩

/-- C15, the code at the failing inputs: a logger constructed with
`LogLevel::Disabled` writes the line of every entry point, and the default logger
(threshold `Info`, which is `<=` every level) writes nothing for `log_debug`. -/
theorem disabled_threshold_writes :
    (Logger.construct LogLevel.Disabled Stream.cout Stream.cerr).log_info "x".data
      = [(Stream.cout, "[Info] x\n".data)] ∧
    (Logger.construct LogLevel.Disabled Stream.cout Stream.cerr).log_debug "x".data
      = [(Stream.cerr, "[Debug] x\n".data)] ∧
    (Logger.construct LogLevel.Disabled Stream.cout Stream.cerr).log_warning "x".data
      = [(Stream.cout, "[Warning] x\n".data)] ∧
    (Logger.construct LogLevel.Disabled Stream.cout Stream.cerr).log_error "x".data
      = [(Stream.cerr, "[Error] x\n".data)] ∧
    (Logger.construct LogLevel.Disabled Stream.cout Stream.cerr).log_critical "x".data
      = [(Stream.cerr, "[Critical] x\n".data)] ∧
    Logger.constructDefault.log_debug "Hello, World!".data = [] := by
  decide

end logger

/-! # Properties of the table-driven population count -/

theorem shift_and_one (v i : Nat) : (v >>> i) &&& 1 = if v.testBit i then 1 else 0 := by
  rw [Nat.and_one_is_mod, Nat.shiftRight_eq_div_pow, ← Nat.toNat_testBit]
  cases v.testBit i <;> rfl

theorem std_popcount_succ (bits v : Nat) :
    std_popcount (bits + 1) v = std_popcount bits v + if v.testBit bits then 1 else 0 := by
  simp only [std_popcount, List.range_succ, List.countP_append, List.countP_singleton]

theorem std_popcount_le (bits v : Nat) : std_popcount bits v ≤ bits := by
  have h := List.countP_le_length (fun i => v.testBit i) (l := List.range bits)
  simpa [std_popcount] using h

/-- Bits at and above position `W` do not count below `W`. -/
theorem std_popcount_mod (W v : Nat) : std_popcount W (v % 2 ^ W) = std_popcount W v := by
  unfold std_popcount
  apply List.countP_congr
  intro i hi
  have hlt : i < W := List.mem_range.mp hi
  simp [Nat.testBit_mod_two_pow, hlt]

/-- Counting below `a + b` splits into the low `a` positions and the `b`
positions above them. -/
theorem std_popcount_add (a b v : Nat) :
    std_popcount (a + b) v = std_popcount a v + std_popcount b (v >>> a) := by
  unfold std_popcount
  rw [List.range_add, List.countP_append, List.countP_map]
  congr 1
  apply List.countP_congr
  intro i _
  simp [Nat.testBit_shiftRight]

theorem std_popcount_zero (k : Nat) : std_popcount k 0 = 0 := by
  unfold std_popcount
  rw [List.countP_eq_zero]
  intro i _
  simp

/-- A value below `2 ^ bits` has no 1 at or above position `bits`. -/
theorem std_popcount_of_lt (bits m v : Nat) (hv : v < 2 ^ bits) (hm : bits ≤ m) :
    std_popcount m v = std_popcount bits v := by
  obtain ⟨k, rfl⟩ := Nat.exists_eq_add_of_le hm
  rw [std_popcount_add, Nat.shiftRight_eq_div_pow, Nat.div_eq_of_lt hv, std_popcount_zero]
  rfl

namespace popcount2

/-- The loop inside the table builder counts the 1 bits below `NBitWidth`. -/
theorem table_popcount_eq (W v : Nat) : get_bit_count_table.popcount W v = std_popcount W v := by
  induction W with
  | zero => rfl
  | succ W ih =>
    unfold get_bit_count_table.popcount at ih ⊢
    rw [List.range_succ, List.foldl_append, ih, std_popcount_succ]
    simp only [List.foldl_cons, List.foldl_nil, shift_and_one]

theorem le_uint_least_bits (W : Nat) (hW : W < 32) : W ≤ uint_least_bits W := by
  unfold uint_least_bits
  split_ifs <;> omega

theorem table_length (W : Nat) : (get_bit_count_table W).length = 2 ^ W := by
  simp [get_bit_count_table, Nat.one_shiftLeft]

/-- Every index below `2 ^ W` is inside the table, and its entry is the number
of 1 bits of the index. -/
theorem table_get (W idx : Nat) (hW : W < 32) (hidx : idx < 2 ^ W) :
    (get_bit_count_table W)[idx]? = some (std_popcount W idx) := by
  have hk : idx < 2 ^ uint_least_bits W :=
    lt_of_lt_of_le hidx (Nat.pow_le_pow_right (by decide) (le_uint_least_bits W hW))
  have hsmall : std_popcount W idx < 2 ^ 8 :=
    lt_of_le_of_lt (std_popcount_le W idx) (by omega)
  unfold get_bit_count_table
  rw [List.getElem?_map, List.getElem?_range (by rw [Nat.one_shiftLeft]; exact hidx)]
  simp only [Option.map_some']
  rw [Nat.mod_eq_of_lt hk, table_popcount_eq, Nat.mod_eq_of_lt hsmall]

/-- The index computed in a round is the low chunk of `u_val`. -/
theorem chunk_index (W u : Nat) (hW : W < 32) :
    (((1 <<< W) - 1) &&& u) % 2 ^ uint_least_bits W = u % 2 ^ W := by
  rw [Nat.one_shiftLeft, Nat.and_comm, Nat.and_pow_two_sub_one_eq_mod]
  apply Nat.mod_eq_of_lt
  exact lt_of_lt_of_le (Nat.mod_lt _ (Nat.pos_pow_of_pos W (by decide)))
    (Nat.pow_le_pow_right (by decide) (le_uint_least_bits W hW))

/-- Loop invariant: `n` rounds add the number of 1 bits below position `W * n`. -/
theorem loop_eq (W bits : Nat) (hW : W < 32) (n : Nat) :
    ∀ u count : Nat, u < 2 ^ bits →
      popcount_lut.loop W bits (get_bit_count_table W) ((1 <<< W) - 1) n u count
        = some (count + std_popcount (W * n) u) := by
  induction n with
  | zero => intro u count _; simp [popcount_lut.loop, std_popcount]
  | succ n ih =>
    intro u count hu
    have hidx : u % 2 ^ W < 2 ^ W := Nat.mod_lt _ (Nat.pos_pow_of_pos W (by decide))
    have hnext : u >>> W < 2 ^ bits := by
      rw [Nat.shiftRight_eq_div_pow]
      exact lt_of_le_of_lt (Nat.div_le_self _ _) hu
    simp only [popcount_lut.loop, chunk_index W u hW, table_get W _ hW hidx,
      Nat.mod_eq_of_lt hnext]
    rw [ih (u >>> W) _ hnext, std_popcount_mod, Nat.mul_succ, Nat.add_comm (W * n) W,
      std_popcount_add, Nat.add_assoc]

theorem toNat_emod_lt (val : Int) (bits : Nat) : (val % 2 ^ bits).toNat < 2 ^ bits := by
  have hpos : (0 : Int) < 2 ^ bits := by positivity
  have h0 : 0 ≤ val % 2 ^ bits := Int.emod_nonneg _ (ne_of_gt hpos)
  rw [Int.toNat_lt h0]
  have h1 := Int.emod_lt_of_pos val hpos
  exact_mod_cast h1

/-- The table-driven count is the number of 1 bits of the value reduced to
`bits` bits, for every table width from 1 to 31. -/
theorem popcount_lut_eq (W bits : Nat) (val : Int) (hW1 : 1 ≤ W) (hW : W < 32) :
    popcount_lut W bits val = some (std_popcount bits (val % 2 ^ bits).toNat) := by
  have hu := toNat_emod_lt val bits
  have hcover : bits ≤ W * (1 + bits / W) := by
    have := Nat.lt_mul_div_succ bits (show 0 < W by omega)
    rw [Nat.add_comm 1]
    omega
  simp only [popcount_lut]
  rw [loop_eq W bits hW _ _ _ hu, Nat.zero_add, std_popcount_of_lt bits _ _ hu hcover]

end popcount2

namespace popcount1

theorem unrolled_popcount_eq (v : Nat) :
    get_bit_count_table.popcount v = popcount2.get_bit_count_table.popcount 8 v := by
  simp [get_bit_count_table.popcount, popcount2.get_bit_count_table.popcount, List.range_succ]

theorem table_eq_width8 : get_bit_count_table = popcount2.get_bit_count_table 8 := by
  unfold get_bit_count_table popcount2.get_bit_count_table
  have h1 : (1 <<< 8 : Nat) = 256 := by decide
  have h2 : popcount2.uint_least_bits 8 = 8 := by decide
  rw [h1, h2]
  apply List.map_congr_left
  intro i _
  rw [unrolled_popcount_eq]

theorem loop_eq_width8 (bits : Nat) (lut : List Nat) (n : Nat) :
    ∀ u count : Nat,
      popcount_lut.loop bits lut n u count
        = popcount2.popcount_lut.loop 8 bits lut ((1 <<< 8) - 1) n u count := by
  induction n with
  | zero => intro u count; rfl
  | succ n ih =>
    intro u count
    simp only [popcount_lut.loop, popcount2.popcount_lut.loop,
      popcount2.chunk_index 8 u (by decide), ih]

/-- The function of `popcount1.cpp` computes what `popcount_lut<8>` of
`popcount2.cpp` computes. -/
theorem popcount_lut_eq_width8 (bits : Nat) (val : Int) :
    popcount_lut bits val = popcount2.popcount_lut 8 bits val := by
  simp only [popcount_lut, popcount2.popcount_lut, table_eq_width8, loop_eq_width8]

end popcount1

/-- C14: for every 32-bit unsigned `v`, `popcount_lut<10>(v)` is the number of
set bits of `v`, that is `std::popcount(v)`, and no lookup leaves the table: the
loop runs `1 + 32 / 10 = 4` rounds of 10 bits, which cover all 32 bits, the table
has 1024 entries and every index used is below 1024. -/
theorem popcount_lut_10_correct (v : Nat) (hv : v < 2 ^ 32) :
    popcount2.popcount_lut 10 32 (v : Int) = some (std_popcount 32 v) ∧
    1 + 32 / 10 = 4 ∧ 32 ≤ 4 * 10 ∧
    (popcount2.get_bit_count_table 10).length = 1024 ∧
    (∀ u : Nat, (((1 <<< 10) - 1) &&& u) % 2 ^ popcount2.uint_least_bits 10 < 1024) := by
  refine ⟨?_, by decide, by decide, ?_, ?_⟩
  · have h := popcount2.popcount_lut_eq 10 32 (v : Int) (by decide) (by decide)
    have hmod : ((v : Int) % 2 ^ 32).toNat = v := by
      have hlt : (v : Int) < 2 ^ 32 := by exact_mod_cast hv
      rw [Int.emod_eq_of_lt (Int.ofNat_nonneg v) hlt]
      exact Int.toNat_ofNat v
    rw [hmod] at h
    exact h
  · rw [popcount2.table_length]
    rfl
  · intro u
    rw [popcount2.chunk_index 10 u (by decide)]
    exact Nat.mod_lt _ (by decide)

/-- The last value of the test loop: all ten low bits set. -/
theorem popcount_lut_10_correct_witness :
    (1023 : Nat) < 2 ^ 32 ∧ popcount2.popcount_lut 10 32 ((1023 : Nat) : Int) = some 10 :=
  ⟨by decide, (popcount_lut_10_correct 1023 (by decide)).1.trans (by decide)⟩

/-- C20: for an integer type of `B` bits (in particular 8, 16, 32, 64), every
value `val` of it, signed or unsigned, and every table width `W` with
`1 <= W < 32`, `popcount_lut<W>(val)` of `popcount2.cpp` is the number of 1 bits
of `val mod 2^B`, and so is `popcount_lut(val)` of `popcount1.cpp` (table width
8); the result is at most `B`; the tables have `2^W` and 256 entries and every
index used is below that, so no lookup leaves a table. -/
theorem popcount_lut_correct (B W : Nat) (val : Int) (hW1 : 1 ≤ W) (hW2 : W < 32) :
    popcount2.popcount_lut W B val = some (std_popcount B (val % 2 ^ B).toNat) ∧
    popcount1.popcount_lut B val = some (std_popcount B (val % 2 ^ B).toNat) ∧
    std_popcount B (val % 2 ^ B).toNat ≤ B ∧
    (popcount2.get_bit_count_table W).length = 2 ^ W ∧
    (∀ u : Nat, (((1 <<< W) - 1) &&& u) % 2 ^ popcount2.uint_least_bits W < 2 ^ W) ∧
    popcount1.get_bit_count_table.length = 2 ^ 8 ∧
    (∀ u : Nat, u % 2 ^ 8 < 2 ^ 8) := by
  refine ⟨popcount2.popcount_lut_eq W B val hW1 hW2, ?_, std_popcount_le _ _,
    popcount2.table_length W, ?_, ?_, fun u => Nat.mod_lt _ (by decide)⟩
  · rw [popcount1.popcount_lut_eq_width8]
    exact popcount2.popcount_lut_eq 8 B val (by decide) (by decide)
  · intro u
    rw [popcount2.chunk_index W u hW2]
    exact Nat.mod_lt _ (Nat.pos_pow_of_pos W (by decide))
  · rw [popcount1.table_eq_width8, popcount2.table_length]

/-- The most negative 8-bit value has one bit set, with a table of width 3 and
with the table of `popcount1.cpp`; the 64-bit value -1 has 64. -/
theorem popcount_lut_correct_witness :
    popcount2.popcount_lut 3 8 (-128) = some 1 ∧
    popcount1.popcount_lut 8 (-128) = some 1 ∧
    popcount1.popcount_lut 64 (-1) = some 64 :=
  ⟨(popcount_lut_correct 8 3 (-128) (by decide) (by decide)).1.trans (by decide),
    (popcount_lut_correct 8 3 (-128) (by decide) (by decide)).2.1.trans (by decide),
    (popcount_lut_correct 64 8 (-1) (by decide) (by decide)).2.1.trans (by decide)⟩

/-! # Key extraction on formatted lines -/

namespace logger2

/-- Every line `format_log` produces contains the delimiter. -/
theorem bar_mem_format_log (WithSrcLoc : Bool) (datetime level src_loc msg : Str) :
    '|' ∈ DefaultFormatter.format_log WithSrcLoc datetime level src_loc msg := by
  cases WithSrcLoc <;> simp [DefaultFormatter.format_log]

/-- On a line containing the delimiter `find` succeeds and the logger's mask
gives a key that begins with the delimiter. -/
theorem loggerMask_of_mem (line : Str) (h : '|' ∈ line) :
    find line '|' ≠ none ∧ ∃ rest, loggerMask line = .ok ('|' :: rest) := by
  obtain ⟨ts, rest, hsplit, hts⟩ := exists_split_bar line h
  refine ⟨?_, rest, ?_⟩
  · rw [hsplit, find_bar ts rest hts]
    simp
  · rw [hsplit]
    exact loggerMask_bar ts rest hts

/-- C21: on every line produced by `DefaultFormatter::format_log`, in either
mode, `find` meets a delimiter (the case `npos`, where `substr` would throw, does
not arise), so the default mask returns a key, and that key is non-empty and
begins with the delimiter; on the empty line the mask returns the empty key.  So
a deduplicating sink whose stored line has a key (as the empty line of a fresh
sink has) does not throw on a formatted line and again stores a line that has a
key, and `Logger::log` of the default logger does not throw on a formatted line. -/
theorem default_key_defined_on_formatted (WithSrcLoc : Bool)
    (datetime level src_loc msg : Str) (s : FilteringStdoutLogSink) (L : LogLevel) :
    DefaultFormatter.format_log WithSrcLoc datetime level src_loc msg ≠ [] ∧
    find (DefaultFormatter.format_log WithSrcLoc datetime level src_loc msg) '|' ≠ none ∧
    (∃ rest, loggerMask (DefaultFormatter.format_log WithSrcLoc datetime level src_loc msg)
      = .ok ('|' :: rest)) ∧
    loggerMask [] = .ok [] ∧
    ((∃ k, loggerMask s.last_seen.1 = .ok k) →
      (s.log loggerMask
        (DefaultFormatter.format_log WithSrcLoc datetime level src_loc msg)).thrown = none ∧
      ∃ k, loggerMask (s.log loggerMask
        (DefaultFormatter.format_log WithSrcLoc datetime level src_loc msg)).self.last_seen.1
          = .ok k) ∧
    (Logger.log L Logger.defaultConstructed
      (DefaultFormatter.format_log WithSrcLoc datetime level src_loc msg)).thrown = none := by
  have hmem := bar_mem_format_log WithSrcLoc datetime level src_loc msg
  obtain ⟨hfind, rest, hkey⟩ := loggerMask_of_mem _ hmem
  refine ⟨?_, hfind, ⟨rest, hkey⟩, rfl, ?_, ?_⟩
  · intro h
    rw [h] at hmem
    simp at hmem
  · intro hs
    obtain ⟨k0, hk0⟩ := hs
    by_cases hkk : ('|' :: rest : Str) = k0
    · have hlog := log_same loggerMask s _ _ hkey (hkk ▸ hk0)
      rw [hlog]
      exact ⟨rfl, k0, hk0⟩
    · have hlog := log_changed loggerMask s _ _ _ hkey hk0 hkk
      rw [hlog]
      exact ⟨rfl, _, hkey⟩
  · have hfresh : FilteringStdoutLogSink.log loggerMask FilteringStdoutLogSink.fresh
        (DefaultFormatter.format_log WithSrcLoc datetime level src_loc msg)
        = ⟨⟨(DefaultFormatter.format_log WithSrcLoc datetime level src_loc msg, 0)⟩,
            [Write.text (DefaultFormatter.format_log WithSrcLoc datetime level src_loc msg)],
            none⟩ := by
      have := log_changed loggerMask FilteringStdoutLogSink.fresh _ _ [] hkey rfl (by simp)
      simpa [FilteringStdoutLogSink.fresh] using this
    unfold Logger.log
    cases hsl : Logger.defaultConstructed.should_log L with
    | false => rfl
    | true =>
      simp only [Bool.not_true, Bool.false_eq_true, if_false, Logger.defaultConstructed,
        Logger.logLoop, LogSink.log, LogSink.ofFiltering, hfresh]

/-- A sink that stores a formatted line takes the next formatted line without
throwing. -/
theorem default_key_defined_on_formatted_witness :
    (FilteringStdoutLogSink.log loggerMask ⟨("10:00|Info||x".data, 0)⟩
      (DefaultFormatter.format_log true "10:07".data "Error".data "a.cpp:main:7".data
        "y".data)).thrown = none :=
  ((default_key_defined_on_formatted true "10:07".data "Error".data "a.cpp:main:7".data
    "y".data ⟨("10:00|Info||x".data, 0)⟩ LogLevel.error).2.2.2.2.1
      ⟨"|Info||x".data, rfl⟩).1

end logger2

/-! # Properties of the checked array -/

namespace unsafe_proxy

/-- C22: the checked subscript, const or not, gives an empty optional exactly
when `idx >= NSize`, and otherwise a reference to element `idx`.  A value `v`
written at an index `i < NSize` through the proxy (the callback `unsafe_api[i] = v`
passed to `unsafe`) stays inside the array, is the value read back through the
checked subscript at `i`, and leaves every other element as it was. -/
theorem safe_array_indexing {T : Type} {NSize : Nat} (sa : SafeArrayImpl T NSize)
    (idx i : Nat) (v : T) :
    (sa.subscript idx = none ↔ idx ≥ NSize) ∧
    (sa.subscript_const idx = none ↔ idx ≥ NSize) ∧
    (∀ h : idx < NSize,
      sa.subscript idx = some ⟨idx, h⟩ ∧ sa.subscript_const idx = some ⟨idx, h⟩) ∧
    (∀ hi : i < NSize,
      UnsafeProvider.unsafe sa (assignAt i v) = .ok (sa.assign ⟨i, hi⟩ v) ∧
      ((sa.assign ⟨i, hi⟩ v).subscript i).map (sa.assign ⟨i, hi⟩ v).get = some v ∧
      ((sa.assign ⟨i, hi⟩ v).subscript_const i).map (sa.assign ⟨i, hi⟩ v).get = some v ∧
      (∀ j : Fin NSize, j.val ≠ i → (sa.assign ⟨i, hi⟩ v).get j = sa.get j)) := by
  refine ⟨?_, ?_, ?_, ?_⟩
  · unfold SafeArrayImpl.subscript
    split <;> simp_all
  · unfold SafeArrayImpl.subscript_const
    split <;> simp_all
  · intro h
    have hn : ¬ idx ≥ NSize := Nat.not_le.mpr h
    simp [SafeArrayImpl.subscript, SafeArrayImpl.subscript_const, hn]
  · intro hi
    have hn : ¬ i ≥ NSize := Nat.not_le.mpr hi
    refine ⟨?_, ?_, ?_, ?_⟩
    · simp [ UnsafeProvider.unsafe, assignAt, Unsafe.subscript, hi]
    · simp [SafeArrayImpl.subscript, hn, SafeArrayImpl.get, SafeArrayImpl.assign]
    · simp [SafeArrayImpl.subscript_const, hn, SafeArrayImpl.get, SafeArrayImpl.assign]
    · intro j hj
      have hne : j ≠ ⟨i, hi⟩ := fun h => hj (congrArg Fin.val h)
      simp [SafeArrayImpl.get, SafeArrayImpl.assign, Function.update_noteq hne]

/-- The array of `main`: 42 written at index 9 through the proxy is read back
by the checked subscript, index 3 keeps its zero, and index 10 is refused. -/
theorem safe_array_indexing_witness :
    ((main_sa.assign ⟨9, by decide⟩ 42).subscript 9).map
        (main_sa.assign ⟨9, by decide⟩ 42).get = some 42 ∧
    (main_sa.assign ⟨9, by decide⟩ 42).get ⟨3, by decide⟩ = 0 ∧
    main_sa.subscript 10 = none :=
  ⟨((safe_array_indexing main_sa 10 9 42).2.2.2 (by decide)).2.1,
    (((safe_array_indexing main_sa 10 9 42).2.2.2 (by decide)).2.2.2 ⟨3, by decide⟩
      (by decide)).trans rfl,
    (safe_array_indexing main_sa 10 9 42).1.mpr (by decide)⟩

end unsafe_proxy

/-! # Properties of the observable value -/

namespace observable

/-- The loop of `Notify` when no subscriber throws on `last`: the subscribers
act one after the other, in the order of `m_subs`, each once. -/
theorem notifyLoop_ok {TValueType W : Type} (subs : List (TValueType → W → Outcome W))
    (last : TValueType) (hok : ∀ f ∈ subs, ∀ w, (f last w).thrown = false) :
    ∀ w, Observable.notifyLoop subs last w
      = ⟨subs.foldl (fun acc f => (f last acc).world) w, false⟩ := by
  induction subs with
  | nil => intro w; rfl
  | cons f rest ih =>
    intro w
    have hf := hok f (List.mem_cons_self _ _) w
    have hr := ih (fun g hg => hok g (List.mem_cons_of_mem _ hg))
    simp only [Observable.notifyLoop, hf, Bool.false_eq_true, if_false, hr, List.foldl_cons]

/-- The loop of `Notify` in general: the subscribers called are a prefix of
`m_subs`, each called once, in order, the one that throws (if any) being the last
of them; the prefix is all of `m_subs` when the loop ends normally. -/
theorem notifyLoop_prefix {TValueType W : Type} (subs : List (TValueType → W → Outcome W))
    (last : TValueType) :
    ∀ w, ∃ k, k ≤ subs.length ∧
      (Observable.notifyLoop subs last w).world
        = (subs.take k).foldl (fun acc f => (f last acc).world) w ∧
      ((Observable.notifyLoop subs last w).thrown = false → k = subs.length) := by
  induction subs with
  | nil => intro w; exact ⟨0, Nat.le_refl _, rfl, fun _ => rfl⟩
  | cons f rest ih =>
    intro w
    cases hf : (f last w).thrown with
    | true =>
      refine ⟨1, by simp, ?_, ?_⟩
      · simp [Observable.notifyLoop, hf]
      · simp [Observable.notifyLoop, hf]
    | false =>
      obtain ⟨k, hk, hworld, hthr⟩ := ih (f last w).world
      refine ⟨k + 1, by simpa using hk, ?_, ?_⟩
      · simp [Observable.notifyLoop, hf, hworld]
      · intro h
        simp only [Observable.notifyLoop, hf, Bool.false_eq_true, if_false] at h
        simp [hthr h]

/-- The loop of `Notify` when a subscriber throws and those before it do not:
the loop ends at that subscriber, those after it are not called. -/
theorem notifyLoop_throw {TValueType W : Type} (pre post : List (TValueType → W → Outcome W))
    (f : TValueType → W → Outcome W) (last : TValueType)
    (hpre : ∀ g ∈ pre, ∀ w, (g last w).thrown = false) :
    ∀ w, (f last (pre.foldl (fun acc g => (g last acc).world) w)).thrown = true →
      Observable.notifyLoop (pre ++ f :: post) last w
        = ⟨(f last (pre.foldl (fun acc g => (g last acc).world) w)).world, true⟩ := by
  induction pre with
  | nil =>
    intro w hf
    simp only [List.foldl_nil] at hf
    simp only [List.nil_append, Observable.notifyLoop, hf, if_true, List.foldl_nil]
    rw [← hf]
  | cons g rest ih =>
    intro w hf
    have hg := hpre g (List.mem_cons_self _ _) w
    have hr := ih (fun x hx => hpre x (List.mem_cons_of_mem _ hx)) (g last w).world
      (by simpa using hf)
    simp only [List.cons_append, Observable.notifyLoop, hg, Bool.false_eq_true, if_false,
      List.append_eq, hr, List.foldl_cons]

/-- C23, as stated, fails when a subscriber throws: with a throwing subscriber
registered first and a recording one second, assigning 7 stores 7, the exception
leaves the assignment and the second subscriber is never called. -/
theorem observable_notification_counterexample :
    (Observable.assign
      (Observable.Subscribe (Observable.Subscribe (Observable.construct 0) thrower)
        (recorder 2)) 7 []).2.world = [] ∧
    (Observable.assign
      (Observable.Subscribe (Observable.Subscribe (Observable.construct 0) thrower)
        (recorder 2)) 7 []).2.thrown = true ∧
    (Observable.assign
      (Observable.Subscribe (Observable.Subscribe (Observable.construct 0) thrower)
        (recorder 2)) 7 []).1.m_value = 7 := by
  decide

/-- C23, amended: `Notify` has no handler around the calls of the subscribers.
For an observable with subscribers `f1 .. fk` in `m_subs`, assigning `v`, by copy
or by move, stores `v` and then calls `f1(v), f2(v), ...` in subscription order,
each at most once, up to and including the first one that throws; when none
throws, every one of `f1 .. fk` is called exactly once; when one throws, those
after it are not called and the exception leaves the assignment.  `Update(v)`
runs the updater and, exactly when it returned true, notifies as the assignment
of the held value the updater left does; when it returned false nothing is
called; with the default updater it is the assignment of `v`.  `Subscribe`
appends the subscriber after the earlier ones and changes nothing else; a
constructed observable has no subscribers; neither calls a subscriber. -/
theorem observable_notification {TValueType W : Type} (o : Observable TValueType W)
    (v init : TValueType) (w : W) (updater : TValueType → TValueType → Bool × TValueType)
    (func : TValueType → W → Outcome W) :
    ((o.assign v w).1 = ⟨o.m_subs, v⟩) ∧
    (∃ k, k ≤ o.m_subs.length ∧
      (o.assign v w).2.world = (o.m_subs.take k).foldl (fun acc f => (f v acc).world) w ∧
      ((o.assign v w).2.thrown = false → k = o.m_subs.length)) ∧
    ((∀ f ∈ o.m_subs, ∀ x, (f v x).thrown = false) →
      (o.assign v w).2 = ⟨o.m_subs.foldl (fun acc f => (f v acc).world) w, false⟩) ∧
    (∀ (pre post : List (TValueType → W → Outcome W)) (f : TValueType → W → Outcome W),
      o.m_subs = pre ++ f :: post → (∀ g ∈ pre, ∀ x, (g v x).thrown = false) →
      (f v (pre.foldl (fun acc g => (g v acc).world) w)).thrown = true →
      (o.assign v w).2 = ⟨(f v (pre.foldl (fun acc g => (g v acc).world) w)).world, true⟩) ∧
    (o.assignMove v w = o.assign v w) ∧
    ((updater v o.m_value).1 = true →
      o.Update updater v w = o.assign (updater v o.m_value).2 w) ∧
    ((updater v o.m_value).1 = false →
      o.Update updater v w = (⟨o.m_subs, (updater v o.m_value).2⟩, ⟨w, false⟩)) ∧
    (o.Update defaultUpdater v w = o.assign v w) ∧
    ((o.Subscribe func).m_subs = o.m_subs ++ [func] ∧
      (o.Subscribe func).m_value = o.m_value) ∧
    ((Observable.construct init : Observable TValueType W).m_subs = [] ∧
      (Observable.constructFrom v : Observable TValueType W).m_subs = [] ∧
      (Observable.constructFrom v : Observable TValueType W).m_value = v) := by
  refine ⟨rfl, ?_, ?_, ?_, rfl, ?_, ?_, rfl, ⟨rfl, rfl⟩, ⟨rfl, rfl, rfl⟩⟩
  · exact notifyLoop_prefix o.m_subs v w
  · intro hok
    exact notifyLoop_ok o.m_subs v hok w
  · intro pre post f hsubs hpre hf
    show Observable.notifyLoop o.m_subs v w = _
    rw [hsubs]
    exact notifyLoop_throw pre post f v hpre w hf
  · intro hu
    simp only [Observable.Update, hu, if_true, Observable.assign]
  · intro hu
    simp only [Observable.Update, hu, Bool.false_eq_true, if_false]

/-- Two recording subscribers, registered in the order 1, 2 on a constructed
observable: assigning 7 calls subscriber 1 and then subscriber 2, both with 7. -/
theorem observable_notification_witness :
    (Observable.assign
      (Observable.Subscribe (Observable.Subscribe (Observable.construct 0) (recorder 1))
        (recorder 2)) 7 []).2.world = [(1, 7), (2, 7)] :=
  (congrArg Outcome.world
    ((observable_notification
      (Observable.Subscribe (Observable.Subscribe (Observable.construct 0) (recorder 1))
        (recorder 2)) 7 0 [] defaultUpdater (recorder 3)).2.2.1
      (by
        intro f hf x
        simp only [Observable.Subscribe, Observable.construct, List.nil_append,
          List.cons_append, List.mem_cons, List.mem_singleton, List.not_mem_nil,
          or_false] at hf
        rcases hf with h | h <;> (rw [h]; rfl)))).trans rfl

end observable

